import Mathlib

/-!
# ThreshRacer: lane geometry, motion scoring and the progress race

A shallow embedding of `src/ofApp.cpp` / `src/ofApp.h`.

Conventions of the embedding:

* `float` and `double` values are rational numbers (`ℚ`). The two loops that
  accumulate a floating-point sum, the shoelace loop of `computePolygonArea` and
  the pixel loop of `computeMotion`, round every operation as IEEE 754 does
  (`roundF`, `roundD`), because their results depend on it. The other expressions
  (clamp, lerp, progress update, squared distance, percentage) are the source
  expressions over the rationals.
* `int` values are `Int`, loop counters and buffer indices are `Nat`,
  `unsigned char` samples are `Fin 256`.
* The member data of `ofApp` that the core reads or writes is the record `App`;
  every member function is a function from `App` (and its arguments) to `App`.
* openFrameworks library calls (`ofClamp`, `ofLerp`, `ofToString`, `ofPixels`,
  `ofPolyline::inside`) are not part of the repository; they are modelled
  separately and the containment test is a parameter of `computeMotion`.
-/

namespace ThreshRacer

set_option maxRecDepth 8192

/-! ## Library values -/

/-- An `ofPoint`, restricted to the two coordinates the program uses. -/
structure Pt where
  x : ℚ
  y : ℚ
deriving DecidableEq

/-- An `ofPixels` buffer: allocation flag, dimensions and the flat interleaved
buffer (row-major) of `unsigned char` samples. -/
structure Pixels where
  allocated : Bool
  width : Nat
  height : Nat
  channels : Nat
  data : List (Fin 256)
deriving DecidableEq

/-- A default-constructed (unallocated) `ofPixels`. -/
def Pixels.empty : Pixels := ⟨false, 0, 0, 0, []⟩

/-- The read `pix[i]` of `ofPixels::operator[]`, as a number in 0..255. The source
does not check the index: a read past the end of the buffer is undefined there; here
it yields 0, and `Pixels.Covers` states when a scan makes no such read. -/
def Pixels.get (p : Pixels) (i : Nat) : Nat := (p.data.getD i 0).val

/-- The buffer `p` holds every sample that a scan of a `w x h` frame with `channels`
samples per pixel reads: `channels >= 3` and `w * h * channels` samples present. -/
def Pixels.Covers (p : Pixels) (w h channels : Nat) : Prop :=
  3 ≤ channels ∧ w * h * channels ≤ p.data.length

/-- The property `Pixels.Covers` is decidable. -/
instance Pixels.coversDecidable (p : Pixels) (w h channels : Nat) :
    Decidable (p.Covers w h channels) := by
  unfold Pixels.Covers; infer_instance

/-- The result of `ofPixels::allocate(w, h, channels)`: a fresh buffer of
`w * h * channels` bytes (taken as zero). -/
def Pixels.allocate (w h channels : Nat) : Pixels :=
  ⟨true, w, h, channels, List.replicate (w * h * channels) 0⟩

/-- Modelled from the spec: `clamp`, the openFrameworks call `ofClamp(value, min, max)`,
whose body is not in the repository: `value < min ? min : value > max ? max : value`. -/
def ofClamp (value min max : ℚ) : ℚ :=
  if value < min then min else if value > max then max else value

/-- Modelled from the spec: `lerp(a,b,t) = a + (b-a)*t`, the openFrameworks call
`ofLerp(start, stop, amt)`, whose body is not in the repository. -/
def ofLerp (start stop amt : ℚ) : ℚ := start + (stop - start) * amt

/-- The C++ conversion `(int)f` of a floating value: truncation toward zero. -/
def truncToInt (q : ℚ) : Int := if 0 ≤ q then ⌊q⌋ else ⌈q⌉

/-- One edge of the crossing-number test: does the ray from `(x, y)` cross the
edge `p1 p2`. -/
def edgeCrosses (x y : ℚ) (p1 p2 : Pt) : Bool :=
  if y > min p1.y p2.y then
    if y ≤ max p1.y p2.y then
      if x ≤ max p1.x p2.x then
        if p1.y ≠ p2.y then
          let xinters := (y - p1.y) * (p2.x - p1.x) / (p2.y - p1.y) + p1.x
          decide (p1.x = p2.x ∨ x ≤ xinters)
        else false
      else false
    else false
  else false

/-- Modelled from the spec: `pointInPolygon(polygon, x, y)`, the openFrameworks call
`ofPolyline::inside(x, y)`, whose body is not in the repository: the crossing-number
(ray casting) test over the closed polygon, odd count means inside. -/
def ofPolylineInside (poly : List Pt) (x y : ℚ) : Bool :=
  let n := poly.length
  let counter := (List.range n).foldl
    (fun (c : Nat) i =>
      if edgeCrosses x y (poly.getD i ⟨0, 0⟩) (poly.getD ((i + 1) % n) ⟨0, 0⟩) then c + 1 else c) 0
  decide (counter % 2 ≠ 0)

/-! ## Floating-point rounding

`float` is IEEE 754 binary32 and `double` binary64, with round-to-nearest, ties to
even, every operation rounded on its own; the exponent range (overflow, subnormal
numbers) is not modelled. -/

/-- The loop of `natLog2`, with `fuel` bounding the number of halvings. -/
def log2Fuel : Nat → Nat → Nat
  | 0, _ => 0
  | fuel + 1, n => if n < 2 then 0 else log2Fuel fuel (n / 2) + 1

/-- The position of the leading bit of `n`: `2 ^ natLog2 n <= n < 2 ^ (natLog2 n + 1)`
for `n > 0`. -/
def natLog2 (n : Nat) : Nat := log2Fuel n n

/-- The nearest integer to a non-negative rational, ties to the even one. -/
def roundHalfEven (x : ℚ) : Int :=
  let f : Int := ⌊x⌋
  let r : ℚ := x - f
  if r < 1 / 2 then f
  else if r > 1 / 2 then f + 1
  else if f % 2 = 0 then f else f + 1

/-- The binade of a positive rational `a`: the integer `e` with
`2 ^ e <= a < 2 ^ (e + 1)`. -/
def binade (a : ℚ) : Int :=
  let e0 : Int := (natLog2 a.num.natAbs : Int) - (natLog2 a.den : Int)
  if (2 : ℚ) ^ e0 ≤ a then e0 else e0 - 1

/-- The nearest number with a `p`-bit significand, ties to even. -/
def roundToPrec (p : Nat) (q : ℚ) : ℚ :=
  if q = 0 then 0
  else
    let a : ℚ := |q|
    let ulp : ℚ := (2 : ℚ) ^ (binade a - ((p : Int) - 1))
    let m : Int := roundHalfEven (a / ulp)
    if q < 0 then -((m : ℚ) * ulp) else (m : ℚ) * ulp

/-- The rounding of a `float` result (24-bit significand). -/
def roundF (q : ℚ) : ℚ := roundToPrec 24 q

/-- The rounding of a `double` result (53-bit significand). -/
def roundD (q : ℚ) : ℚ := roundToPrec 53 q

/-! ## Program constants and state (`ofApp.h`) -/

/-- Member `camWidth = 640`. -/
def camWidth : Int := 640

/-- Member `camHeight = 480`. -/
def camHeight : Int := 480

/-- Constant `NUM_LANES = 2`. -/
def NUM_LANES : Nat := 2

/-- Constant `NUM_CORNERS = 4`. -/
def NUM_CORNERS : Nat := 4

/-- The data members of `ofApp` used by the lane editor, the motion scorer and
the race. `lanePts lane i` is `lanePts[lane][i]`; `roundStatusLabel` is `none`
while the label widget pointer is null, otherwise the label text. -/
structure App where
  lanePts : Nat → Nat → Pt
  lanePolys : Nat → List Pt
  laneAreas : Nat → ℚ
  draggingCorner : Bool
  draggingLane : Int
  draggingCornerIndex : Int
  cornerPickRadius : ℚ
  prevFrame : Pixels
  diffPixels : Pixels
  diffImage : Pixels
  hasPrevFrame : Bool
  leftScore : ℚ
  rightScore : ℚ
  motionThreshold : ℚ
  smoothing : ℚ
  showDiff : Bool
  roundActive : Bool
  progressLeft : ℚ
  progressRight : ℚ
  progressGainLeft : ℚ
  progressGainRight : ℚ
  currentPage : Int
  guiPage3 : Bool
  roundStatusLabel : Option String

/-- The member initialisers of `ofApp.h`, before `setup()` runs. -/
def App.default : App where
  lanePts := fun _ _ => ⟨0, 0⟩
  lanePolys := fun _ => []
  laneAreas := fun _ => 0
  draggingCorner := false
  draggingLane := -1
  draggingCornerIndex := -1
  cornerPickRadius := 15
  prevFrame := Pixels.empty
  diffPixels := Pixels.empty
  diffImage := Pixels.empty
  hasPrevFrame := false
  leftScore := 0
  rightScore := 0
  motionThreshold := 30
  smoothing := 1 / 5
  showDiff := false
  roundActive := false
  progressLeft := 0
  progressRight := 0
  progressGainLeft := 1 / 2
  progressGainRight := 1 / 2
  currentPage := 1
  guiPage3 := false
  roundStatusLabel := none

/-- The assignment `pts[lane][i].set(p)`. -/
def setPt (pts : Nat → Nat → Pt) (lane i : Nat) (p : Pt) : Nat → Nat → Pt :=
  fun l j => if l = lane ∧ j = i then p else pts l j

/-! ## Geometry -/

/-- The function `ofApp::computePolygonArea(pts, count)`, the point array and its
count given as a list: the shoelace loop over `i = 0 .. count-1` adds
`p0.x * p1.y - p1.x * p0.y` (two `float` products and a `float` difference) to the
`double` accumulator `area`, with `p1 = pts[(i + 1) % count]`; the result is
`fabs(area) * 0.5f` returned as `float`; 0 when `count < 3`. -/
def computePolygonArea (pts : List Pt) : ℚ :=
  let count := pts.length
  if count < 3 then 0
  else
    let area := (List.range count).foldl
      (fun (area : ℚ) i =>
        let p0 := pts.getD i ⟨0, 0⟩
        let p1 := pts.getD ((i + 1) % count) ⟨0, 0⟩
        roundD (area + roundF (roundF (p0.x * p1.y) - roundF (p1.x * p0.y)))) 0
    roundF (roundD (|area| * (1 / 2)))

/-- The corner array `lanePts[lane]` as passed to `computePolygonArea` with
`NUM_CORNERS`. -/
def laneCorners (pts : Nat → Nat → Pt) (lane : Nat) : List Pt :=
  (List.range NUM_CORNERS).map (pts lane)

/-- The function `ofApp::computeLaneAreas()`. -/
def computeLaneAreas (s : App) : App :=
  (List.range NUM_LANES).foldl
    (fun s lane =>
      { s with laneAreas := fun l =>
          if l = lane then computePolygonArea (laneCorners s.lanePts lane) else s.laneAreas l })
    s

/-- The function `ofApp::updateLaneGeometry()`: each lane polyline is cleared,
refilled with the four corners and closed; then the areas are recomputed. -/
def updateLaneGeometry (s : App) : App :=
  computeLaneAreas <| (List.range NUM_LANES).foldl
    (fun s lane =>
      { s with lanePolys := fun l =>
          if l = lane then
            (List.range NUM_CORNERS).foldl (fun poly i => poly ++ [s.lanePts lane i]) []
          else s.lanePolys l })
    s

/-- The function `ofApp::setActivePage(page)` (widget visibility is not modelled). -/
def setActivePage (s : App) (page : Int) : App :=
  { s with currentPage := truncToInt (ofClamp page 1 3) }

/-- The function `ofApp::setup()`: left and right half quads, geometry update,
GUI pages created (start page 1, status label "Race idle"). -/
def setup : App :=
  let halfW : ℚ := camWidth * (1 / 2)
  let p := App.default.lanePts
  let p := setPt p 0 0 ⟨0, 0⟩
  let p := setPt p 0 1 ⟨halfW, 0⟩
  let p := setPt p 0 2 ⟨halfW, camHeight⟩
  let p := setPt p 0 3 ⟨0, camHeight⟩
  let p := setPt p 1 0 ⟨halfW, 0⟩
  let p := setPt p 1 1 ⟨camWidth, 0⟩
  let p := setPt p 1 2 ⟨camWidth, camHeight⟩
  let p := setPt p 1 3 ⟨halfW, camHeight⟩
  let s := updateLaneGeometry { App.default with lanePts := p }
  let s := setActivePage { s with guiPage3 := true, roundStatusLabel := some "Race idle" } 1
  { s with diffImage := Pixels.allocate camWidth.toNat camHeight.toNat 3 }

/-! ## Lane editor (mouse events) -/

/-- The locals and members written by the search loop of `mousePressed`. -/
structure Pick where
  bestDistSq : ℚ
  draggingCorner : Bool
  draggingLane : Int
  draggingCornerIndex : Int
deriving DecidableEq

/-- The squared distance `d2` computed in the loop body of `mousePressed` for the
corner `lanePts[lane][i]` and the click `(x, y)`. -/
def cornerDistSq (pts : Nat → Nat → Pt) (x y : Int) (lane i : Nat) : ℚ :=
  let dx : ℚ := (x : ℚ) - (pts lane i).x
  let dy : ℚ := (y : ℚ) - (pts lane i).y
  dx * dx + dy * dy

/-- The body of the inner loop of `mousePressed`: `if (d2 <= bestDistSq)` the
corner becomes the current pick. -/
def pickStep (pts : Nat → Nat → Pt) (x y : Int) (acc : Pick) (lane i : Nat) : Pick :=
  let d2 := cornerDistSq pts x y lane i
  if d2 ≤ acc.bestDistSq then ⟨d2, true, (lane : Int), (i : Int)⟩ else acc

/-- The search of `mousePressed` (lines 476-495): reset the pick, then the two
nested loops over lanes and corners. -/
def findNearestCorner (pts : Nat → Nat → Pt) (cornerPickRadius : ℚ) (x y : Int) : Pick :=
  (List.range NUM_LANES).foldl
    (fun acc lane =>
      (List.range NUM_CORNERS).foldl (fun acc i => pickStep pts x y acc lane i) acc)
    ⟨cornerPickRadius * cornerPickRadius, false, -1, -1⟩

/-- The function `ofApp::mousePressed(x, y, button)`. -/
def mousePressed (s : App) (x y : Int) : App :=
  if s.currentPage ≠ 1 then s
  else if x < 0 ∨ x ≥ camWidth ∨ y < 0 ∨ y ≥ camHeight then s
  else
    let r := findNearestCorner s.lanePts s.cornerPickRadius x y
    { s with
      draggingCorner := r.draggingCorner
      draggingLane := r.draggingLane
      draggingCornerIndex := r.draggingCornerIndex }

/-- The function `ofApp::mouseDragged(x, y, button)`: the coordinates are clamped
with `ofClamp` and converted back to `int` before the corner is stored. -/
def mouseDragged (s : App) (x y : Int) : App :=
  if s.currentPage ≠ 1 then s
  else if !s.draggingCorner then s
  else
    let x : Int := truncToInt (ofClamp x 0 ((camWidth - 1 : Int) : ℚ))
    let y : Int := truncToInt (ofClamp y 0 ((camHeight - 1 : Int) : ℚ))
    if 0 ≤ s.draggingLane ∧ s.draggingLane < NUM_LANES ∧
        0 ≤ s.draggingCornerIndex ∧ s.draggingCornerIndex < NUM_CORNERS then
      updateLaneGeometry
        { s with lanePts :=
            setPt s.lanePts s.draggingLane.toNat s.draggingCornerIndex.toNat ⟨x, y⟩ }
    else s

/-- The function `ofApp::mouseReleased(x, y, button)`. -/
def mouseReleased (s : App) : App :=
  { s with draggingCorner := false, draggingLane := -1, draggingCornerIndex := -1 }

/-- The page keys of `ofApp::keyPressed(key)` together with the diff toggle
(fullscreen is not modelled). -/
def keyPressed (s : App) (key : Char) : App :=
  let s := if key = 'd' ∨ key = 'D' then { s with showDiff := !s.showDiff } else s
  if key = '1' then setActivePage s 1
  else if key = '2' then setActivePage s 2
  else if key = '3' then setActivePage s 3
  else s

/-- The inputs of the lane editor. -/
inductive LaneEvent where
  | pressed (x y : Int)
  | dragged (x y : Int)
  | released
  | key (c : Char)

/-- One lane editor event applied to the state. -/
def laneStep (s : App) : LaneEvent → App
  | .pressed x y => mousePressed s x y
  | .dragged x y => mouseDragged s x y
  | .released => mouseReleased s
  | .key c => keyPressed s c

/-- The state after a sequence of lane editor events, starting from `setup()`. -/
def laneRun (es : List LaneEvent) : App := es.foldl laneStep setup

/-! ## Motion detector, lane scorer and race update (`computeMotion`) -/

/-- The values carried through the pixel scan of `computeMotion`: the two lane
sums and the thresholded difference buffer. -/
structure ScanAcc where
  frameLeftSum : ℚ
  frameRightSum : ℚ
  diffData : List (Fin 256)

/-- The difference magnitude `d = (dR + dG + dB) / 3.0f` (a `float` division) of
the pixel whose first sample is at `idx`. -/
def pixelDiff (cur prev : Pixels) (idx : Nat) : ℚ :=
  let dR : Int := |(cur.get (idx + 0) : Int) - (prev.get (idx + 0) : Int)|
  let dG : Int := |(cur.get (idx + 1) : Int) - (prev.get (idx + 1) : Int)|
  let dB : Int := |(cur.get (idx + 2) : Int) - (prev.get (idx + 2) : Int)|
  roundF (((dR + dG + dB : Int) : ℚ) / 3)

/-- The body of the inner pixel loop of `computeMotion` (lines 185-214), with the
library containment test `inside` as a parameter; `frameLeftSum += d` and
`frameRightSum += d` are `float` additions. -/
def scanPixel (inside : List Pt → ℚ → ℚ → Bool) (s : App) (cur : Pixels)
    (w channels : Nat) (acc : ScanAcc) (x y : Nat) : ScanAcc :=
  let idx := (y * w + x) * channels
  let d := pixelDiff cur s.prevFrame idx
  let isMotion : Bool := decide (d > s.motionThreshold)
  let out : Fin 256 := if isMotion then 255 else 0
  let diff := ((acc.diffData.set (idx + 0) out).set (idx + 1) out).set (idx + 2) out
  if isMotion then
    let inLeft := decide ((s.lanePolys 0).length > 0) && inside (s.lanePolys 0) x y
    let inRight := decide ((s.lanePolys 1).length > 0) && inside (s.lanePolys 1) x y
    { frameLeftSum := if inLeft then roundF (acc.frameLeftSum + d) else acc.frameLeftSum
      frameRightSum := if inRight then roundF (acc.frameRightSum + d) else acc.frameRightSum
      diffData := diff }
  else
    { acc with diffData := diff }

/-- The two nested pixel loops of `computeMotion` (lines 183-216). -/
def scanFrame (inside : List Pt → ℚ → ℚ → Bool) (s : App) (cur : Pixels)
    (w h channels : Nat) (acc : ScanAcc) : ScanAcc :=
  (List.range h).foldl
    (fun acc y => (List.range w).foldl (fun acc x => scanPixel inside s cur w channels acc x y) acc)
    acc

/-- The per-lane normalisation of `computeMotion` (lines 221-232):
`frameSum / (laneArea * 255)` when that maximum is positive, else 0. -/
def laneNorm (frameSum laneArea : ℚ) : ℚ :=
  let maxLane := laneArea * 255
  if maxLane > 0 then frameSum / maxLane else 0

/-- The progress accumulation of `computeMotion` (lines 238-246) for the tick's
normalised values. -/
def accumulateProgress (s : App) (leftNorm rightNorm : ℚ) : App :=
  if s.roundActive then
    let s := { s with progressLeft := ofClamp (s.progressLeft + leftNorm * s.progressGainLeft) 0 1 }
    let s := { s with
      progressRight := ofClamp (s.progressRight + rightNorm * s.progressGainRight) 0 1 }
    if s.progressLeft ≥ 1 ∨ s.progressRight ≥ 1 then { s with roundActive := false } else s
  else s

/-- The difference buffer after lines 176-178 of `computeMotion`: allocated afresh
when it is missing or its shape differs from the current frame. -/
def diffTarget (s : App) (cur : Pixels) : Pixels :=
  if !s.diffPixels.allocated ∨ s.diffPixels.width ≠ cur.width ∨
      s.diffPixels.height ≠ cur.height ∨ s.diffPixels.channels ≠ cur.channels then
    Pixels.allocate cur.width cur.height cur.channels
  else s.diffPixels

/-- The pixel scan of a scoring tick of `computeMotion`, started with
`frameLeftSum = frameRightSum = 0` (lines 180-216). -/
def tickScan (inside : List Pt → ℚ → ℚ → Bool) (s : App) (cur : Pixels) : ScanAcc :=
  scanFrame inside s cur cur.width cur.height cur.channels ⟨0, 0, (diffTarget s cur).data⟩

/-- The function `ofApp::computeMotion()`, for the camera frame `cur` and the
library containment test `inside`. -/
def computeMotion (inside : List Pt → ℚ → ℚ → Bool) (s : App) (cur : Pixels) : App :=
  if !cur.allocated then s
  else if !s.prevFrame.allocated then
    { s with prevFrame := cur, hasPrevFrame := true }
  else
    let r := tickScan inside s cur
    let diffPixels := { diffTarget s cur with data := r.diffData }
    let leftNorm := laneNorm r.frameLeftSum (s.laneAreas 0)
    let rightNorm := laneNorm r.frameRightSum (s.laneAreas 1)
    let s := { s with
      diffPixels := diffPixels
      diffImage := diffPixels
      leftScore := ofLerp s.leftScore leftNorm s.smoothing
      rightScore := ofLerp s.rightScore rightNorm s.smoothing }
    let s := accumulateProgress s leftNorm rightNorm
    { s with prevFrame := cur }

/-- The widget that raised a button event. -/
inductive Widget where
  | startRoundButton
  | other
deriving DecidableEq

/-- The function `ofApp::onButtonEvent(e)`: `target` is `e.target`, the two
options are the gain sliders (`none` for a null pointer, else `getValue()`). -/
def onButtonEvent (s : App) (target : Widget) (leftGainSlider rightGainSlider : Option ℚ) :
    App :=
  if target = Widget.startRoundButton then
    { s with
      progressGainLeft := (match leftGainSlider with
        | some v => v
        | none => s.progressGainLeft)
      progressGainRight := (match rightGainSlider with
        | some v => v
        | none => s.progressGainRight)
      roundActive := true
      progressLeft := 0
      progressRight := 0 }
  else s

/-! ## Round status (`updateRoundStatus`) -/

/-- The label chosen by `updateRoundStatus`, one constructor per string built. -/
inductive RoundLabel where
  | running (pL pR : Int)
  | idle
  | tie100
  | leftWins (pL pR : Int)
  | rightWins (pR pL : Int)
  | leftLeads (pL pR : Int)
  | rightLeads (pR pL : Int)
  | tie (pL : Int)
deriving DecidableEq

/-- The text of each label, with `ofToString` of an `int` as `toString`. -/
def RoundLabel.text : RoundLabel → String
  | .running pL pR => "Running: L " ++ toString pL ++ "%  R " ++ toString pR ++ "%"
  | .idle => "Race idle"
  | .tie100 => "Finished: Tie (100%)"
  | .leftWins pL pR => "Finished: Left wins (" ++ toString pL ++ "% vs " ++ toString pR ++ "%)"
  | .rightWins pR pL => "Finished: Right wins (" ++ toString pR ++ "% vs " ++ toString pL ++ "%)"
  | .leftLeads pL pR => "Finished: Left leads (" ++ toString pL ++ "% vs " ++ toString pR ++ "%)"
  | .rightLeads pR pL =>
    "Finished: Right leads (" ++ toString pR ++ "% vs " ++ toString pL ++ "%)"
  | .tie pL => "Finished: Tie (" ++ toString pL ++ "%)"

/-- The percentage `(int)ofClamp(progress * 100.0f, 0.0f, 100.0f)`. -/
def percent (progress : ℚ) : Int := truncToInt (ofClamp (progress * 100) 0 100)

/-- The choice of label in `updateRoundStatus` (lines 268-296). -/
def roundLabel (roundActive : Bool) (progressLeft progressRight : ℚ) : RoundLabel :=
  let pL := percent progressLeft
  let pR := percent progressRight
  if roundActive then .running pL pR
  else if progressLeft = 0 ∧ progressRight = 0 then .idle
  else if |progressLeft - progressRight| < 1 / 1000 ∧ progressLeft ≥ 1 ∧ progressRight ≥ 1 then
    .tie100
  else if progressLeft ≥ 1 ∧ progressLeft > progressRight then .leftWins pL pR
  else if progressRight ≥ 1 ∧ progressRight > progressLeft then .rightWins pR pL
  else if progressLeft > progressRight then .leftLeads pL pR
  else if progressRight > progressLeft then .rightLeads pR pL
  else .tie pL

/-- The function `ofApp::updateRoundStatus()`. -/
def updateRoundStatus (s : App) : App :=
  if !s.guiPage3 ∨ s.roundStatusLabel.isNone then s
  else
    let label := roundLabel s.roundActive s.progressLeft s.progressRight
    { s with roundStatusLabel := some label.text }

/-- The function `ofApp::update()`: `frameNew` is `cam.isFrameNew()`, `cur` the
camera pixels, the four options are the sliders (`none` for a null pointer, else
`getValue()`); the GUI page updates and `updateGuiLabels` only touch widgets. -/
def update (inside : List Pt → ℚ → ℚ → Bool) (s : App) (frameNew : Bool) (cur : Pixels)
    (thresholdSlider smoothingSlider leftGainSlider rightGainSlider : Option ℚ) : App :=
  let s :=
    if frameNew then
      let s := match thresholdSlider with
        | some v => { s with motionThreshold := v }
        | none => s
      let s := match smoothingSlider with
        | some v => { s with smoothing := ofClamp v 0 1 }
        | none => s
      let s := match leftGainSlider with
        | some v => { s with progressGainLeft := v }
        | none => s
      let s := match rightGainSlider with
        | some v => { s with progressGainRight := v }
        | none => s
      computeMotion inside s cur
    else s
  updateRoundStatus s

/-! ## The race as a state machine -/

/-- The inputs of the race: the start button with the slider values; a scoring
tick with the gains read from the sliders by `update()` and the normalised values
of that tick; and a whole `update()` call with its camera frame and sliders. -/
inductive RaceEvent where
  | start (leftGainSlider rightGainSlider : Option ℚ)
  | tick (gainLeft gainRight leftNorm rightNorm : ℚ)
  | frame (frameNew : Bool) (cur : Pixels)
      (thresholdSlider smoothingSlider leftGainSlider rightGainSlider : Option ℚ)

/-- One race event applied to the state. -/
def raceStep (inside : List Pt → ℚ → ℚ → Bool) (s : App) : RaceEvent → App
  | .start l r => onButtonEvent s Widget.startRoundButton l r
  | .tick gL gR nL nR =>
    accumulateProgress { s with progressGainLeft := gL, progressGainRight := gR } nL nR
  | .frame frameNew cur th sm gl gr => update inside s frameNew cur th sm gl gr

/-- The state after a sequence of race events, starting from `setup()`. -/
def raceRun (inside : List Pt → ℚ → ℚ → Bool) (es : List RaceEvent) : App :=
  es.foldl (raceStep inside) setup

/-! ## Invariants, orders and sums used in the proofs -/

/-- The invariant of the race: both progress values lie in [0, 1], and an inactive
race has either both progress values 0 or one of them equal to 1. -/
def RaceInv (s : App) : Prop :=
  0 ≤ s.progressLeft ∧ s.progressLeft ≤ 1 ∧ 0 ≤ s.progressRight ∧ s.progressRight ≤ 1 ∧
  (s.roundActive = true ∨ (s.progressLeft = 0 ∧ s.progressRight = 0) ∨
    s.progressLeft = 1 ∨ s.progressRight = 1)

/-- The order in which the two loops of `mousePressed` visit the corners. -/
def cornerOrder : List (Nat × Nat) :=
  [(0, 0), (0, 1), (0, 2), (0, 3), (1, 0), (1, 1), (1, 2), (1, 3)]

/-- Corner `a` is visited strictly before corner `b` (lane first, then index). -/
def visitedBefore (a b : Nat × Nat) : Prop := a.1 < b.1 ∨ (a.1 = b.1 ∧ a.2 < b.2)

/-- The visiting order is decidable. -/
instance visitedBeforeDecidable (a b : Nat × Nat) : Decidable (visitedBefore a b) := by
  unfold visitedBefore; infer_instance

/-- The range a dragged corner is clamped to: `0 <= x <= camWidth - 1` and
`0 <= y <= camHeight - 1`. -/
def inClampRange (p : Pt) : Prop :=
  0 ≤ p.x ∧ p.x ≤ ((camWidth - 1 : Int) : ℚ) ∧ 0 ≤ p.y ∧ p.y ≤ ((camHeight - 1 : Int) : ℚ)

/-- The closed frame rectangle: `0 <= x <= camWidth` and `0 <= y <= camHeight`. -/
def inFrameRect (p : Pt) : Prop :=
  0 ≤ p.x ∧ p.x ≤ (camWidth : ℚ) ∧ 0 ≤ p.y ∧ p.y ≤ (camHeight : ℚ)

/-- The invariant of the lane editor: every corner still holds its `setup()`
position or lies in the clamp range. -/
def LaneInv (s : App) : Prop :=
  ∀ l i, l < NUM_LANES → i < NUM_CORNERS →
    s.lanePts l i = setup.lanePts l i ∨ inClampRange (s.lanePts l i)

/-- The summand `p0.x * p1.y - p1.x * p0.y` of the shoelace loop. -/
def cross (p0 p1 : Pt) : ℚ := p0.x * p1.y - p1.x * p0.y

/-- The shoelace sum written over the list of edges `(pts[i], pts[(i+1) % count])`. -/
def shoelace (pts : List Pt) : ℚ := (List.zipWith cross pts (pts.rotate 1)).sum

/-- A point whose coordinates are integers of absolute value at most 2048. -/
def smallIntPt (p : Pt) : Prop :=
  p.x.den = 1 ∧ p.y.den = 1 ∧ |p.x| ≤ 2048 ∧ |p.y| ≤ 2048

/-- The property `smallIntPt` is decidable. -/
instance smallIntPtDecidable (p : Pt) : Decidable (smallIntPt p) := by
  unfold smallIntPt; infer_instance

/-- The state right after `setup()` and a press of the start button with both
gain sliders at 1.0: active, progress (0, 0). -/
def raceStart : App := onButtonEvent setup Widget.startRoundButton (some 1) (some 1)

/-- A started race on the initial layout whose previous frame is 4 x 1 (3 channels,
all samples 0). -/
def mismatchState : App :=
  { raceStart with prevFrame := ⟨true, 4, 1, 3, List.replicate 12 0⟩ }

/-- A current frame of 2 x 2 (3 channels, all samples 255): same buffer size as the
previous frame of `mismatchState`, other width and height. -/
def mismatchFrame : Pixels := ⟨true, 2, 2, 3, List.replicate 12 255⟩

/-- Four points with `float` coordinates as large as 1e8. -/
def skewQuad : List Pt := [⟨0, 1⟩, ⟨1, -100000000⟩, ⟨-100000000, 0⟩, ⟨2, -100000000⟩]

/-- With enough fuel the halving loop finds the leading bit. -/
theorem log2Fuel_spec : ∀ (fuel n : Nat), n ≤ fuel → n ≠ 0 →
    2 ^ log2Fuel fuel n ≤ n ∧ n < 2 ^ (log2Fuel fuel n + 1) := by
  intro fuel
  induction fuel with
  | zero => intro n h h0; omega
  | succ f ih =>
    intro n h h0
    unfold log2Fuel
    by_cases h2 : n < 2
    · rw [if_pos h2]
      have : n = 1 := by omega
      subst this
      simp
    · rw [if_neg h2]
      have hd : n / 2 ≤ f := by omega
      have hd0 : n / 2 ≠ 0 := by omega
      obtain ⟨a, b⟩ := ih (n / 2) hd hd0
      constructor
      · rw [pow_succ]
        omega
      · rw [pow_succ]
        omega

/-- The leading bit of a positive number. -/
theorem natLog2_spec (n : Nat) (h : n ≠ 0) : 2 ^ natLog2 n ≤ n ∧ n < 2 ^ (natLog2 n + 1) :=
  log2Fuel_spec n n (le_refl n) h

/-- Rounding an integer to the nearest integer changes nothing. -/
theorem roundHalfEven_intCast (k : Int) : roundHalfEven (k : ℚ) = k := by
  unfold roundHalfEven
  simp

/-- A number that is an integer multiple of its unit in the last place is its own rounding. -/
theorem roundToPrec_exact (p : Nat) (q : ℚ) (m : Int)
    (h : |q| / (2 : ℚ) ^ (binade |q| - ((p : Int) - 1)) = (m : ℚ)) : roundToPrec p q = q := by
  unfold roundToPrec
  by_cases h0 : q = 0
  · simp [h0]
  · rw [if_neg h0]
    simp only
    rw [h, roundHalfEven_intCast]
    have hu : (2 : ℚ) ^ (binade |q| - ((p : Int) - 1)) ≠ 0 := zpow_ne_zero _ (by norm_num)
    have hm : (m : ℚ) * (2 : ℚ) ^ (binade |q| - ((p : Int) - 1)) = |q| := by
      rw [← h]
      field_simp
    rw [hm]
    split_ifs with hneg
    · rw [abs_of_neg hneg]; ring
    · rw [abs_of_nonneg (not_lt.mp hneg)]

/-- The binade of a positive natural number is the position of its leading bit. -/
theorem binade_natCast (n : Nat) (h : n ≠ 0) : binade (n : ℚ) = (natLog2 n : Int) := by
  unfold binade
  have h1 : natLog2 1 = 0 := by decide
  simp only [Rat.num_natCast, Int.natAbs_ofNat, Rat.den_natCast, h1, Nat.cast_zero, sub_zero]
  rw [if_pos]
  rw [zpow_natCast]
  exact_mod_cast (natLog2_spec n h).1

/-- Natural numbers up to `2 ^ p` are exact with a `p`-bit significand. -/
theorem roundToPrec_natCast (p n : Nat) (hp : 1 ≤ p) (h : n ≤ 2 ^ p) :
    roundToPrec p (n : ℚ) = (n : ℚ) := by
  by_cases h0 : n = 0
  · subst h0
    simp [roundToPrec]
  obtain ⟨hlo, hhi⟩ := natLog2_spec n h0
  have habs : |(n : ℚ)| = (n : ℚ) := abs_of_nonneg (Nat.cast_nonneg n)
  have hle : natLog2 n ≤ p := by
    by_contra hc
    have : 2 ^ (p + 1) ≤ 2 ^ natLog2 n := Nat.pow_le_pow_right (by norm_num) (by omega)
    have : 2 ^ p < 2 ^ (p + 1) := Nat.pow_lt_pow_right (by norm_num) (by omega)
    omega
  by_cases he : natLog2 n = p
  · have hn : n = 2 ^ p := by
      rw [he] at hlo
      omega
    apply roundToPrec_exact p (n : ℚ) ((2 ^ (p - 1) : Nat) : Int)
    rw [habs, binade_natCast n h0, he]
    have : ((p : Int) - ((p : Int) - 1)) = 1 := by ring
    rw [this, zpow_one, hn]
    push_cast
    have hp2 : (2 : ℚ) ^ p = 2 ^ (p - 1) * 2 := by
      rw [← pow_succ]
      congr 1
      omega
    rw [hp2]
    field_simp
  · have hlt : natLog2 n ≤ p - 1 := by omega
    apply roundToPrec_exact p (n : ℚ) ((n * 2 ^ (p - 1 - natLog2 n) : Nat) : Int)
    rw [habs, binade_natCast n h0]
    have : ((natLog2 n : Int) - ((p : Int) - 1)) = -((p - 1 - natLog2 n : Nat) : Int) := by
      omega
    rw [this, zpow_neg, zpow_natCast]
    push_cast
    field_simp

/-- Rounding is symmetric about zero. -/
theorem roundToPrec_neg (p : Nat) (q : ℚ) : roundToPrec p (-q) = -roundToPrec p q := by
  unfold roundToPrec
  by_cases h0 : q = 0
  · simp [h0]
  · have h0n : -q ≠ 0 := neg_ne_zero.mpr h0
    rw [if_neg h0, if_neg h0n]
    simp only [abs_neg]
    rcases lt_or_gt_of_ne h0 with h | h
    · have h1 : ¬ (-q < 0) := by linarith [h]
      rw [if_neg h1, if_pos h]
      ring
    · have h1 : -q < 0 := by linarith [h]
      have h2 : ¬ q < 0 := by linarith [h]
      rw [if_pos h1, if_neg h2]

/-- Integers of absolute value up to `2 ^ p` are exact with a `p`-bit significand. -/
theorem roundToPrec_intCast (p : Nat) (k : Int) (hp : 1 ≤ p) (h : |k| ≤ 2 ^ p) :
    roundToPrec p (k : ℚ) = (k : ℚ) := by
  rcases le_total 0 k with hk | hk
  · obtain ⟨n, rfl⟩ := Int.eq_ofNat_of_zero_le hk
    rw [abs_of_nonneg hk] at h
    have hn : n ≤ 2 ^ p := by exact_mod_cast h
    simpa using roundToPrec_natCast p n hp hn
  · obtain ⟨n, hn'⟩ := Int.eq_ofNat_of_zero_le (neg_nonneg.mpr hk)
    have hk' : k = -(n : Int) := by omega
    subst hk'
    rw [abs_neg, abs_of_nonneg (Int.natCast_nonneg n)] at h
    have hn : n ≤ 2 ^ p := by exact_mod_cast h
    have := roundToPrec_natCast p n hp hn
    push_cast
    rw [roundToPrec_neg, this]

/-- Integers of absolute value up to `2 ^ 24` are exact in `float`. -/
theorem roundF_intCast (k : Int) (h : |k| ≤ 2 ^ 24) : roundF (k : ℚ) = (k : ℚ) :=
  roundToPrec_intCast 24 k (by norm_num) h

/-- Integers of absolute value up to `2 ^ 53` are exact in `double`. -/
theorem roundD_intCast (k : Int) (h : |k| ≤ 2 ^ 53) : roundD (k : ℚ) = (k : ℚ) :=
  roundToPrec_intCast 53 k (by norm_num) h

/-! ### Clamp and truncation -/

/-- The clamp never exceeds its upper bound. -/
theorem ofClamp_le (v : ℚ) {a b : ℚ} (h : a ≤ b) : ofClamp v a b ≤ b := by
  unfold ofClamp; split_ifs <;> linarith

/-- The clamp never falls below its lower bound. -/
theorem le_ofClamp (v : ℚ) {a b : ℚ} (h : a ≤ b) : a ≤ ofClamp v a b := by
  unfold ofClamp; split_ifs <;> linarith

/-! ### Race update (C1) -/

/-- C1: one scoring tick of the race (`accumulateProgress`, the progress part of
`computeMotion`). While active, the new left and right progress are
`clamp(old + n * gain, 0, 1)` per lane, both from the old values, and the race
turns inactive exactly when a new progress value is at least 1; while inactive the
state is unchanged. From active, progress (0, 0), left gain 1 and a right lane
that does not finish on the first tick, two ticks with left value 1/2 give left
progress 1/2 and an active race, then left progress exactly 1 and an inactive
race. -/
theorem accumulateProgress_spec (s : App) (nL nR : ℚ) :
    (s.roundActive = true →
      (accumulateProgress s nL nR).progressLeft
          = ofClamp (s.progressLeft + nL * s.progressGainLeft) 0 1 ∧
      (accumulateProgress s nL nR).progressRight
          = ofClamp (s.progressRight + nR * s.progressGainRight) 0 1 ∧
      ((accumulateProgress s nL nR).roundActive = false ↔
          (1 ≤ (accumulateProgress s nL nR).progressLeft ∨
           1 ≤ (accumulateProgress s nL nR).progressRight))) ∧
    (s.roundActive = false → accumulateProgress s nL nR = s) ∧
    (∀ nR1 nR2 : ℚ, s.roundActive = true → s.progressLeft = 0 → s.progressRight = 0 →
      s.progressGainLeft = 1 → nR1 * s.progressGainRight < 1 →
      (accumulateProgress s (1 / 2) nR1).roundActive = true ∧
      (accumulateProgress s (1 / 2) nR1).progressLeft = 1 / 2 ∧
      (accumulateProgress (accumulateProgress s (1 / 2) nR1) (1 / 2) nR2).progressLeft = 1 ∧
      (accumulateProgress (accumulateProgress s (1 / 2) nR1) (1 / 2) nR2).roundActive = false) := by
  refine ⟨?_, ?_, ?_⟩
  · intro h
    unfold accumulateProgress
    simp only [h, if_true]
    split_ifs with h1
    · simp
      simpa using h1
    · simp
      simpa using h1
  · intro h
    simp [accumulateProgress, h]
  · intro nR1 nR2 ha hl hr hg hlt
    have e1 : ofClamp (0 + 1 / 2 * 1) 0 1 = 1 / 2 := by norm_num [ofClamp]
    have e2 : ofClamp (1 / 2 + 1 / 2 * 1) 0 1 = 1 := by norm_num [ofClamp]
    have hr1 : ofClamp (0 + nR1 * s.progressGainRight) 0 1 < 1 := by
      unfold ofClamp; split_ifs <;> linarith
    have hs1 : accumulateProgress s (1 / 2) nR1 =
        { s with progressLeft := 1 / 2
                 progressRight := ofClamp (0 + nR1 * s.progressGainRight) 0 1 } := by
      unfold accumulateProgress
      simp only [ha, hl, hr, hg, if_true, e1]
      rw [if_neg]
      intro hc
      rcases hc with hc | hc
      · norm_num at hc
      · exact absurd hc (not_le.mpr hr1)
    rw [hs1]
    refine ⟨ha, rfl, ?_, ?_⟩
    · unfold accumulateProgress
      simp only [ha, hg, if_true, e2]
      split_ifs <;> rfl
    · unfold accumulateProgress
      simp only [ha, hg, if_true, e2]
      rw [if_pos (Or.inl (le_refl (1 : ℚ)))]

/-- C1, worked example: after the start button with both gains 1, two ticks with
left value 1/2 and a still right lane. -/
theorem accumulateProgress_two_ticks :
    (accumulateProgress raceStart (1 / 2) 0).roundActive = true ∧
    (accumulateProgress raceStart (1 / 2) 0).progressLeft = 1 / 2 ∧
    (accumulateProgress (accumulateProgress raceStart (1 / 2) 0) (1 / 2) 0).progressLeft = 1 ∧
    (accumulateProgress (accumulateProgress raceStart (1 / 2) 0) (1 / 2) 0).roundActive = false :=
  (accumulateProgress_spec raceStart 0 0).2.2 0 0 (by decide!) (by decide!) (by decide!)
    (by decide!) (by decide!)

/-- The race fields after `accumulateProgress` depend on the race fields only. -/
theorem accumulateProgress_congr (s s' : App) (nL nR : ℚ)
    (ha : s'.roundActive = s.roundActive)
    (hl : s'.progressLeft = s.progressLeft) (hr : s'.progressRight = s.progressRight)
    (hgl : s'.progressGainLeft = s.progressGainLeft)
    (hgr : s'.progressGainRight = s.progressGainRight) :
    (accumulateProgress s' nL nR).progressLeft = (accumulateProgress s nL nR).progressLeft ∧
    (accumulateProgress s' nL nR).progressRight = (accumulateProgress s nL nR).progressRight ∧
    (accumulateProgress s' nL nR).roundActive = (accumulateProgress s nL nR).roundActive := by
  unfold accumulateProgress
  rw [ha, hl, hr, hgl, hgr]
  dsimp only
  split_ifs
  · exact ⟨rfl, rfl, rfl⟩
  · exact ⟨rfl, rfl, rfl⟩
  · exact ⟨hl, hr, ha⟩

/-- On a scoring tick (camera frame and previous frame allocated) the race fields
after `computeMotion` are those of `accumulateProgress` for the tick's two
normalised values. -/
theorem computeMotion_progress (inside : List Pt → ℚ → ℚ → Bool) (s : App) (cur : Pixels)
    (hc : cur.allocated = true) (hp : s.prevFrame.allocated = true) :
    (computeMotion inside s cur).progressLeft
      = (accumulateProgress s (laneNorm (tickScan inside s cur).frameLeftSum (s.laneAreas 0))
          (laneNorm (tickScan inside s cur).frameRightSum (s.laneAreas 1))).progressLeft ∧
    (computeMotion inside s cur).progressRight
      = (accumulateProgress s (laneNorm (tickScan inside s cur).frameLeftSum (s.laneAreas 0))
          (laneNorm (tickScan inside s cur).frameRightSum (s.laneAreas 1))).progressRight ∧
    (computeMotion inside s cur).roundActive
      = (accumulateProgress s (laneNorm (tickScan inside s cur).frameLeftSum (s.laneAreas 0))
          (laneNorm (tickScan inside s cur).frameRightSum (s.laneAreas 1))).roundActive := by
  unfold computeMotion
  simp only [hc, hp, Bool.not_true, Bool.false_eq_true, if_false]
  exact accumulateProgress_congr s _ _ _ rfl rfl rfl rfl rfl

/-! ### Start command (C3) -/

/-- C3: the start button, from every state (whatever the previous active flag and
progress values), gives an active race with left and right progress 0; the gains
are captured from the sliders that exist; lane corners, lane polygons, lane areas
and the smoothed instant scores are unchanged. -/
theorem onButtonEvent_start (s : App) (leftGainSlider rightGainSlider : Option ℚ) :
    (onButtonEvent s Widget.startRoundButton leftGainSlider rightGainSlider).roundActive = true ∧
    (onButtonEvent s Widget.startRoundButton leftGainSlider rightGainSlider).progressLeft = 0 ∧
    (onButtonEvent s Widget.startRoundButton leftGainSlider rightGainSlider).progressRight = 0 ∧
    (onButtonEvent s Widget.startRoundButton leftGainSlider rightGainSlider).progressGainLeft
      = leftGainSlider.getD s.progressGainLeft ∧
    (onButtonEvent s Widget.startRoundButton leftGainSlider rightGainSlider).progressGainRight
      = rightGainSlider.getD s.progressGainRight ∧
    (onButtonEvent s Widget.startRoundButton leftGainSlider rightGainSlider).lanePts = s.lanePts ∧
    (onButtonEvent s Widget.startRoundButton leftGainSlider rightGainSlider).lanePolys
      = s.lanePolys ∧
    (onButtonEvent s Widget.startRoundButton leftGainSlider rightGainSlider).laneAreas
      = s.laneAreas ∧
    (onButtonEvent s Widget.startRoundButton leftGainSlider rightGainSlider).leftScore
      = s.leftScore ∧
    (onButtonEvent s Widget.startRoundButton leftGainSlider rightGainSlider).rightScore
      = s.rightScore := by
  cases leftGainSlider <;> cases rightGainSlider <;> simp [onButtonEvent]

/-! ### Round status (C2) -/

/-- The function `updateRoundStatus` writes the text of `roundLabel` into the status
label whenever the page and the label widget exist. -/
theorem updateRoundStatus_label (s : App) (hg : s.guiPage3 = true)
    (hl : s.roundStatusLabel.isSome = true) :
    (updateRoundStatus s).roundStatusLabel
      = some (roundLabel s.roundActive s.progressLeft s.progressRight).text := by
  cases hs : s.roundStatusLabel with
  | none => simp [hs] at hl
  | some t => simp [updateRoundStatus, hg, hs]

/-- C2, as stated, fails: with the race inactive and progress (1.0005, 1.0) the left
lane is at least 1.0 and strictly greater than the right lane, yet the label is
"Finished: Tie (100%)", not "Left wins"; and with progress (0, 0), where neither
lane is at least 1.0 and the two are equal, the label is "Race idle", not the
non-terminal tie. -/
theorem roundLabel_wins_overlap :
    (1 : ℚ) ≤ 10005 / 10000 ∧ (1 : ℚ) < 10005 / 10000 ∧
    roundLabel false (10005 / 10000) 1 = RoundLabel.tie100 ∧
    roundLabel false (10005 / 10000) 1
      ≠ RoundLabel.leftWins (percent (10005 / 10000)) (percent 1) ∧
    (roundLabel false (10005 / 10000) 1).text = "Finished: Tie (100%)" ∧
    ¬ ((0 : ℚ) ≥ 1) ∧ roundLabel false 0 0 = RoundLabel.idle ∧
    roundLabel false 0 0 ≠ RoundLabel.tie (percent 0) := by
  decide!

/-- C2, amended: `roundLabel` (the choice made by `updateRoundStatus`) reports the
live percentages whenever the race is active; while inactive it reports idle if and
only if both progress values are 0; tie at 100% when both are at least 1 and within
0.001 of each other; left (right) wins, with the winner's percentage first, when
that lane is at least 1, strictly greater than the other, and the two are not both
at least 1 within 0.001 of each other; left (right) leads when neither is at least 1
and that lane is strictly greater; the non-terminal tie when neither is at least 1,
they are equal and not both 0. -/
theorem roundLabel_spec (pL pR : ℚ) :
    roundLabel true pL pR = RoundLabel.running (percent pL) (percent pR) ∧
    (roundLabel false pL pR = RoundLabel.idle ↔ pL = 0 ∧ pR = 0) ∧
    (1 ≤ pL → 1 ≤ pR → |pL - pR| < 1 / 1000 → roundLabel false pL pR = RoundLabel.tie100) ∧
    (1 ≤ pL → pR < pL → ¬ (1 ≤ pR ∧ |pL - pR| < 1 / 1000) →
      roundLabel false pL pR = RoundLabel.leftWins (percent pL) (percent pR)) ∧
    (1 ≤ pR → pL < pR → ¬ (1 ≤ pL ∧ |pL - pR| < 1 / 1000) →
      roundLabel false pL pR = RoundLabel.rightWins (percent pR) (percent pL)) ∧
    (pL < 1 → pR < 1 → pR < pL →
      roundLabel false pL pR = RoundLabel.leftLeads (percent pL) (percent pR)) ∧
    (pL < 1 → pR < 1 → pL < pR →
      roundLabel false pL pR = RoundLabel.rightLeads (percent pR) (percent pL)) ∧
    (pL < 1 → pR < 1 → pL = pR → ¬ (pL = 0 ∧ pR = 0) →
      roundLabel false pL pR = RoundLabel.tie (percent pL)) := by
  refine ⟨?_, ?_, ?_, ?_, ?_, ?_, ?_, ?_⟩
  · simp [roundLabel]
  · unfold roundLabel
    constructor
    · intro h
      by_contra hne
      simp only [Bool.false_eq_true, if_false, if_neg hne] at h
      split_ifs at h
    · intro h
      simp [h]
  · intro h1 h2 h3
    have hne : ¬ (pL = 0 ∧ pR = 0) := fun h => by linarith [h.1]
    unfold roundLabel
    simp only [Bool.false_eq_true, if_false, if_neg hne]
    rw [if_pos ⟨h3, h1, h2⟩]
  · intro h1 h2 h3
    have hne : ¬ (pL = 0 ∧ pR = 0) := fun h => by linarith [h.1]
    have h3' : ¬ (|pL - pR| < 1 / 1000 ∧ pL ≥ 1 ∧ pR ≥ 1) := fun h => h3 ⟨h.2.2, h.1⟩
    unfold roundLabel
    simp only [Bool.false_eq_true, if_false, if_neg hne, if_neg h3']
    rw [if_pos ⟨h1, h2⟩]
  · intro h1 h2 h3
    have hne : ¬ (pL = 0 ∧ pR = 0) := fun h => by linarith [h.2]
    have h3' : ¬ (|pL - pR| < 1 / 1000 ∧ pL ≥ 1 ∧ pR ≥ 1) := fun h => h3 ⟨h.2.1, h.1⟩
    have h4 : ¬ (pL ≥ 1 ∧ pL > pR) := fun h => by linarith [h.2]
    unfold roundLabel
    simp only [Bool.false_eq_true, if_false, if_neg hne, if_neg h3', if_neg h4]
    rw [if_pos ⟨h1, h2⟩]
  · intro h1 h2 h3
    have hne : ¬ (pL = 0 ∧ pR = 0) := fun h => by linarith [h.1, h.2]
    have h3' : ¬ (|pL - pR| < 1 / 1000 ∧ pL ≥ 1 ∧ pR ≥ 1) := fun h => by linarith [h.2.1]
    have h4 : ¬ (pL ≥ 1 ∧ pL > pR) := fun h => by linarith [h.1]
    have h5 : ¬ (pR ≥ 1 ∧ pR > pL) := fun h => by linarith [h.1]
    unfold roundLabel
    simp only [Bool.false_eq_true, if_false, if_neg hne, if_neg h3', if_neg h4, if_neg h5]
    rw [if_pos h3]
  · intro h1 h2 h3
    have hne : ¬ (pL = 0 ∧ pR = 0) := fun h => by linarith [h.1, h.2]
    have h3' : ¬ (|pL - pR| < 1 / 1000 ∧ pL ≥ 1 ∧ pR ≥ 1) := fun h => by linarith [h.2.1]
    have h4 : ¬ (pL ≥ 1 ∧ pL > pR) := fun h => by linarith [h.1]
    have h5 : ¬ (pR ≥ 1 ∧ pR > pL) := fun h => by linarith [h.1]
    have h6 : ¬ (pL > pR) := fun h => by linarith
    unfold roundLabel
    simp only [Bool.false_eq_true, if_false, if_neg hne, if_neg h3', if_neg h4, if_neg h5,
      if_neg h6]
    rw [if_pos h3]
  · intro h1 h2 h3 hne
    have h3' : ¬ (|pL - pR| < 1 / 1000 ∧ pL ≥ 1 ∧ pR ≥ 1) := fun h => by linarith [h.2.1]
    have h4 : ¬ (pL ≥ 1 ∧ pL > pR) := fun h => by linarith [h.1]
    have h5 : ¬ (pR ≥ 1 ∧ pR > pL) := fun h => by linarith [h.1]
    have h6 : ¬ (pL > pR) := fun h => by linarith
    have h7 : ¬ (pR > pL) := fun h => by linarith
    unfold roundLabel
    simp only [Bool.false_eq_true, if_false, if_neg hne, if_neg h3', if_neg h4, if_neg h5,
      if_neg h6, if_neg h7]

/-- C2, worked examples: inactive (1.0, 0.6) is "Left wins (100% vs 60%)", inactive
(1.0, 1.0) is the tie at 100%, inactive (0, 0) is idle, active (0.3, 0.7) shows
"L 30%  R 70%". -/
theorem roundLabel_examples :
    roundLabel false 1 (6 / 10) = RoundLabel.leftWins (percent 1) (percent (6 / 10)) ∧
    (roundLabel false 1 (6 / 10)).text = "Finished: Left wins (100% vs 60%)" ∧
    roundLabel false 1 1 = RoundLabel.tie100 ∧
    (roundLabel false 1 1).text = "Finished: Tie (100%)" ∧
    roundLabel false 0 0 = RoundLabel.idle ∧
    (roundLabel false 0 0).text = "Race idle" ∧
    roundLabel true (3 / 10) (7 / 10) = RoundLabel.running (percent (3 / 10)) (percent (7 / 10)) ∧
    (roundLabel true (3 / 10) (7 / 10)).text = "Running: L 30%  R 70%" :=
  ⟨(roundLabel_spec 1 (6 / 10)).2.2.2.1 (by norm_num) (by norm_num) (by norm_num),
   by decide!,
   (roundLabel_spec 1 1).2.2.1 (by norm_num) (by norm_num) (by norm_num),
   by decide!,
   (roundLabel_spec 0 0).2.1.mpr ⟨rfl, rfl⟩,
   by decide!,
   (roundLabel_spec (3 / 10) (7 / 10)).1,
   by decide!⟩

/-! ### Reachable states of the race (C10) -/

/-- The state after `setup()` satisfies the race invariant. -/
theorem raceInv_setup : RaceInv setup := by
  refine ⟨?_, ?_, ?_, ?_, ?_⟩
  · exact le_refl (0 : ℚ)
  · show (0 : ℚ) ≤ 1
    norm_num
  · exact le_refl (0 : ℚ)
  · show (0 : ℚ) ≤ 1
    norm_num
  · exact Or.inr (Or.inl ⟨rfl, rfl⟩)

/-- The progress accumulation preserves the race invariant. -/
theorem raceInv_accumulate (s : App) (nL nR : ℚ) (h : RaceInv s) :
    RaceInv (accumulateProgress s nL nR) := by
  obtain ⟨h1, h2, h3, h4, h5⟩ := h
  have z1 : (0 : ℚ) ≤ 1 := by norm_num
  unfold accumulateProgress
  by_cases ha : s.roundActive = true
  · simp only [ha, if_true]
    have a1 := le_ofClamp (s.progressLeft + nL * s.progressGainLeft) z1
    have a2 := ofClamp_le (s.progressLeft + nL * s.progressGainLeft) z1
    have b1 := le_ofClamp (s.progressRight + nR * s.progressGainRight) z1
    have b2 := ofClamp_le (s.progressRight + nR * s.progressGainRight) z1
    split_ifs with hc
    · refine ⟨a1, a2, b1, b2, Or.inr (Or.inr ?_)⟩
      rcases hc with hc | hc
      · exact Or.inl (le_antisymm a2 hc)
      · exact Or.inr (le_antisymm b2 hc)
    · exact ⟨a1, a2, b1, b2, Or.inl rfl⟩
  · simp only [ha]
    exact ⟨h1, h2, h3, h4, h5⟩

/-- The race invariant depends on the active flag and the two progress values only. -/
theorem raceInv_congr (s s' : App) (h : RaceInv s) (ha : s'.roundActive = s.roundActive)
    (hl : s'.progressLeft = s.progressLeft) (hr : s'.progressRight = s.progressRight) :
    RaceInv s' := by
  unfold RaceInv at *
  rw [ha, hl, hr]
  exact h

/-- Every call of `computeMotion` preserves the race invariant. -/
theorem raceInv_computeMotion (inside : List Pt → ℚ → ℚ → Bool) (s : App) (cur : Pixels)
    (h : RaceInv s) : RaceInv (computeMotion inside s cur) := by
  unfold computeMotion
  split_ifs
  · exact h
  · exact raceInv_congr s _ h rfl rfl rfl
  · dsimp only
    refine raceInv_congr _ _ (raceInv_accumulate _ _ _ ?_) rfl rfl rfl
    exact raceInv_congr s _ h rfl rfl rfl

/-- Every call of `update` preserves the race invariant. -/
theorem raceInv_update (inside : List Pt → ℚ → ℚ → Bool) (s : App) (frameNew : Bool)
    (cur : Pixels) (th sm gl gr : Option ℚ) (h : RaceInv s) :
    RaceInv (update inside s frameNew cur th sm gl gr) := by
  have hst : ∀ s' : App, RaceInv s' → RaceInv (updateRoundStatus s') := by
    intro s' h'
    unfold updateRoundStatus
    split_ifs
    · exact h'
    · exact raceInv_congr s' _ h' rfl rfl rfl
  unfold update
  apply hst
  split_ifs
  · apply raceInv_computeMotion
    cases th <;> cases sm <;> cases gl <;> cases gr <;> exact raceInv_congr s _ h rfl rfl rfl
  · exact h

/-- Every race event preserves the race invariant. -/
theorem raceInv_step (inside : List Pt → ℚ → ℚ → Bool) (s : App) (e : RaceEvent)
    (h : RaceInv s) : RaceInv (raceStep inside s e) := by
  cases e with
  | start l r =>
    have z1 : (0 : ℚ) ≤ 1 := by norm_num
    exact ⟨le_refl _, z1, le_refl _, z1, Or.inl rfl⟩
  | tick gL gR nL nR =>
    exact raceInv_accumulate _ nL nR h
  | frame frameNew cur th sm gl gr =>
    exact raceInv_update inside s frameNew cur th sm gl gr h

/-- Every sequence of race events preserves the race invariant. -/
theorem raceInv_foldl (inside : List Pt → ℚ → ℚ → Bool) (es : List RaceEvent) :
    ∀ s : App, RaceInv s → RaceInv (es.foldl (raceStep inside) s) := by
  induction es with
  | nil => intro s h; exact h
  | cons e t ih => intro s h; exact ih _ (raceInv_step inside s e h)

/-- Under the race invariant the label is neither a "leads" label nor the non-terminal tie. -/
theorem roundLabel_terminal (a : Bool) (pL pR : ℚ) (hL : pL ≤ 1) (hR : pR ≤ 1)
    (h : a = true ∨ (pL = 0 ∧ pR = 0) ∨ pL = 1 ∨ pR = 1) :
    (∀ x y, roundLabel a pL pR ≠ RoundLabel.leftLeads x y) ∧
    (∀ x y, roundLabel a pL pR ≠ RoundLabel.rightLeads x y) ∧
    (∀ x, roundLabel a pL pR ≠ RoundLabel.tie x) := by
  have key : ¬ a = true → ¬ (pL = 0 ∧ pR = 0) →
      ¬ (|pL - pR| < 1 / 1000 ∧ pL ≥ 1 ∧ pR ≥ 1) → ¬ (pL ≥ 1 ∧ pL > pR) →
      ¬ (pR ≥ 1 ∧ pR > pL) → False := by
    intro k1 k2 k3 k4 k5
    rcases h with h | h | h | h
    · exact k1 h
    · exact k2 h
    · subst h
      have : pR = 1 := by
        by_contra hne
        exact k4 ⟨le_refl _, lt_of_le_of_ne hR hne⟩
      subst this
      exact k3 ⟨by norm_num, le_refl _, le_refl _⟩
    · subst h
      have : pL = 1 := by
        by_contra hne
        exact k5 ⟨le_refl _, lt_of_le_of_ne hL hne⟩
      subst this
      exact k3 ⟨by norm_num, le_refl _, le_refl _⟩
  unfold roundLabel
  refine ⟨?_, ?_, ?_⟩
  · intro x y
    split_ifs with k1 k2 k3 k4 k5 k6 k7 <;> first | exact (key k1 k2 k3 k4 k5).elim | (intro hc; cases hc)
  · intro x y
    split_ifs with k1 k2 k3 k4 k5 k6 k7 <;> first | exact (key k1 k2 k3 k4 k5).elim | (intro hc; cases hc)
  · intro x
    split_ifs with k1 k2 k3 k4 k5 k6 k7 <;> first | exact (key k1 k2 k3 k4 k5).elim | (intro hc; cases hc)

/-- C10: in every state reached from `setup()` by start commands, scoring ticks with
arbitrary normalised values and gains, and whole `update()` calls (for any
containment test), both progress values lie in [0, 1], and
the race is active, or both progress values are 0, or one of them equals 1; so
`roundLabel` never yields a "leads" label nor the non-terminal tie there. -/
theorem raceRun_invariant (inside : List Pt → ℚ → ℚ → Bool) (es : List RaceEvent) :
    0 ≤ (raceRun inside es).progressLeft ∧ (raceRun inside es).progressLeft ≤ 1 ∧
    0 ≤ (raceRun inside es).progressRight ∧ (raceRun inside es).progressRight ≤ 1 ∧
    ((raceRun inside es).roundActive = true ∨
      ((raceRun inside es).progressLeft = 0 ∧ (raceRun inside es).progressRight = 0) ∨
      (raceRun inside es).progressLeft = 1 ∨ (raceRun inside es).progressRight = 1) ∧
    (∀ x y, roundLabel (raceRun inside es).roundActive (raceRun inside es).progressLeft
      (raceRun inside es).progressRight ≠ RoundLabel.leftLeads x y) ∧
    (∀ x y, roundLabel (raceRun inside es).roundActive (raceRun inside es).progressLeft
      (raceRun inside es).progressRight ≠ RoundLabel.rightLeads x y) ∧
    (∀ x, roundLabel (raceRun inside es).roundActive (raceRun inside es).progressLeft
      (raceRun inside es).progressRight ≠ RoundLabel.tie x) := by
  have h : RaceInv (raceRun inside es) := raceInv_foldl inside es setup raceInv_setup
  obtain ⟨h1, h2, h3, h4, h5⟩ := h
  have t := roundLabel_terminal _ _ _ h2 h4 h5
  exact ⟨h1, h2, h3, h4, h5, t.1, t.2.1, t.2.2⟩

/-! ### Corner pick (C4, C5) -/

/-- The two nested loops of the corner search visit the corners in `cornerOrder`. -/
theorem findNearestCorner_flat (pts : Nat → Nat → Pt) (r : ℚ) (x y : Int) :
    findNearestCorner pts r x y
      = cornerOrder.foldl (fun acc c => pickStep pts x y acc c.1 c.2) ⟨r * r, false, -1, -1⟩ :=
  rfl

/-- The search loop over any list of corners: either nothing is within the current best
distance, or the result is a nearest corner, at most as far as every earlier one and
strictly nearer than every later one. -/
theorem pick_foldl (pts : Nat → Nat → Pt) (x y : Int) :
    ∀ (L : List (Nat × Nat)) (acc : Pick),
      (L.foldl (fun acc c => pickStep pts x y acc c.1 c.2) acc = acc ∧
        ∀ c ∈ L, acc.bestDistSq < cornerDistSq pts x y c.1 c.2) ∨
      (∃ L1 c L2, L = L1 ++ c :: L2 ∧
        L.foldl (fun acc c => pickStep pts x y acc c.1 c.2) acc
          = ⟨cornerDistSq pts x y c.1 c.2, true, (c.1 : Int), (c.2 : Int)⟩ ∧
        cornerDistSq pts x y c.1 c.2 ≤ acc.bestDistSq ∧
        (∀ c' ∈ L1, cornerDistSq pts x y c.1 c.2 ≤ cornerDistSq pts x y c'.1 c'.2) ∧
        (∀ c' ∈ L2, cornerDistSq pts x y c.1 c.2 < cornerDistSq pts x y c'.1 c'.2)) := by
  intro L
  induction L with
  | nil => intro acc; exact Or.inl ⟨rfl, by simp⟩
  | cons a t ih =>
    intro acc
    rw [List.foldl_cons]
    by_cases hle : cornerDistSq pts x y a.1 a.2 ≤ acc.bestDistSq
    · have hstep : pickStep pts x y acc a.1 a.2
          = ⟨cornerDistSq pts x y a.1 a.2, true, (a.1 : Int), (a.2 : Int)⟩ := by
        simp [pickStep, hle]
      rw [hstep]
      rcases ih ⟨cornerDistSq pts x y a.1 a.2, true, (a.1 : Int), (a.2 : Int)⟩ with
        ⟨he, hall⟩ | ⟨L1, c, L2, hL, he, hc, h1, h2⟩
      · exact Or.inr ⟨[], a, t, rfl, he, hle, by simp, hall⟩
      · refine Or.inr ⟨a :: L1, c, L2, by simp [hL], he, le_trans hc hle, ?_, h2⟩
        intro c' hc'
        rcases List.mem_cons.mp hc' with h | h
        · subst h; exact hc
        · exact h1 c' h
    · have hstep : pickStep pts x y acc a.1 a.2 = acc := by
        simp [pickStep, hle]
      rw [hstep]
      have hlt : acc.bestDistSq < cornerDistSq pts x y a.1 a.2 := not_le.mp hle
      rcases ih acc with ⟨he, hall⟩ | ⟨L1, c, L2, hL, he, hc, h1, h2⟩
      · refine Or.inl ⟨he, ?_⟩
        intro c hc
        rcases List.mem_cons.mp hc with h | h
        · subst h; exact hlt
        · exact hall c h
      · refine Or.inr ⟨a :: L1, c, L2, by simp [hL], he, hc, ?_, h2⟩
        intro c' hc'
        rcases List.mem_cons.mp hc' with h | h
        · subst h; exact le_of_lt (lt_of_le_of_lt hc hlt)
        · exact h1 c' h

/-- The visited corners are exactly the valid (lane, index) pairs. -/
theorem mem_cornerOrder (l i : Nat) : (l, i) ∈ cornerOrder ↔ l < NUM_LANES ∧ i < NUM_CORNERS := by
  simp only [cornerOrder, NUM_LANES, NUM_CORNERS, List.mem_cons, Prod.mk.injEq, List.mem_singleton,
    List.not_mem_nil, or_false]
  omega

/-- The corners are visited lane first, then index. -/
theorem cornerOrder_pairwise : cornerOrder.Pairwise visitedBefore := by
  decide

/-- The visiting order is asymmetric. -/
theorem visitedBefore_asymm {a b : Nat × Nat} (h : visitedBefore a b) : ¬ visitedBefore b a := by
  unfold visitedBefore at *
  omega

/-- The corner search: no corner within the pick radius, or the last of the nearest corners
in visiting order. -/
theorem findNearestCorner_spec (pts : Nat → Nat → Pt) (r : ℚ) (x y : Int) :
    (findNearestCorner pts r x y = ⟨r * r, false, -1, -1⟩ ∧
      ∀ l i, l < NUM_LANES → i < NUM_CORNERS → r * r < cornerDistSq pts x y l i) ∨
    (∃ l i, l < NUM_LANES ∧ i < NUM_CORNERS ∧
      findNearestCorner pts r x y = ⟨cornerDistSq pts x y l i, true, (l : Int), (i : Int)⟩ ∧
      cornerDistSq pts x y l i ≤ r * r ∧
      (∀ l' i', l' < NUM_LANES → i' < NUM_CORNERS →
        cornerDistSq pts x y l i ≤ cornerDistSq pts x y l' i') ∧
      (∀ l' i', l' < NUM_LANES → i' < NUM_CORNERS → visitedBefore (l, i) (l', i') →
        cornerDistSq pts x y l i < cornerDistSq pts x y l' i')) := by
  rw [findNearestCorner_flat]
  rcases pick_foldl pts x y cornerOrder ⟨r * r, false, -1, -1⟩ with
    ⟨he, hall⟩ | ⟨L1, c, L2, hL, he, hc, h1, h2⟩
  · refine Or.inl ⟨he, ?_⟩
    intro l i hl hi
    exact hall (l, i) ((mem_cornerOrder l i).mpr ⟨hl, hi⟩)
  · have hmem : c ∈ cornerOrder := by rw [hL]; simp
    have hpw := cornerOrder_pairwise
    rw [hL, List.pairwise_append] at hpw
    obtain ⟨-, hpw2, hpw3⟩ := hpw
    have hsplit : ∀ c' ∈ cornerOrder, c' ∈ L1 ∨ c' = c ∨ c' ∈ L2 := by
      intro c' hc'
      rw [hL] at hc'
      simpa using hc'
    refine Or.inr ⟨c.1, c.2, ((mem_cornerOrder c.1 c.2).mp hmem).1,
      ((mem_cornerOrder c.1 c.2).mp hmem).2, he, hc, ?_, ?_⟩
    · intro l' i' hl' hi'
      rcases hsplit (l', i') ((mem_cornerOrder l' i').mpr ⟨hl', hi'⟩) with h | h | h
      · simpa using h1 _ h
      · rw [← h]
      · simpa using le_of_lt (h2 _ h)
    · intro l' i' hl' hi' hvb
      rcases hsplit (l', i') ((mem_cornerOrder l' i').mpr ⟨hl', hi'⟩) with h | h | h
      · exact absurd (hpw3 _ h c (by simp)) (visitedBefore_asymm hvb)
      · rw [← h] at hvb
        exact absurd hvb (visitedBefore_asymm hvb)
      · simpa using h2 _ h

/-- On page 1 and inside the camera area `mousePressed` stores the outcome of the corner
search. -/
theorem mousePressed_fields (s : App) (x y : Int) (hp : s.currentPage = 1)
    (hx : 0 ≤ x ∧ x < camWidth) (hy : 0 ≤ y ∧ y < camHeight) :
    (mousePressed s x y).draggingCorner
      = (findNearestCorner s.lanePts s.cornerPickRadius x y).draggingCorner ∧
    (mousePressed s x y).draggingLane
      = (findNearestCorner s.lanePts s.cornerPickRadius x y).draggingLane ∧
    (mousePressed s x y).draggingCornerIndex
      = (findNearestCorner s.lanePts s.cornerPickRadius x y).draggingCornerIndex := by
  have hout : ¬ (x < 0 ∨ x ≥ camWidth ∨ y < 0 ∨ y ≥ camHeight) := by
    omega
  unfold mousePressed
  simp only [hp, ne_eq, not_true_eq_false, if_false, if_neg hout, and_self]

/-- C5: for a click on page 1 inside the camera area, `mousePressed` picks no corner
(`draggingCorner = false`, lane -1, index -1) if and only if no corner of the 8 has
squared distance at most `cornerPickRadius ^ 2` from the click; otherwise the picked
(lane, index) is a valid pair (lane below 2, index below 4), its corner is within the
pick radius and its squared distance is at most that of each of the 8 corners. -/
theorem mousePressed_pick (s : App) (x y : Int) (hp : s.currentPage = 1)
    (hx : 0 ≤ x ∧ x < camWidth) (hy : 0 ≤ y ∧ y < camHeight) :
    (((mousePressed s x y).draggingCorner = false ∧ (mousePressed s x y).draggingLane = -1 ∧
        (mousePressed s x y).draggingCornerIndex = -1) ↔
      ∀ l i, l < NUM_LANES → i < NUM_CORNERS →
        ¬ cornerDistSq s.lanePts x y l i ≤ s.cornerPickRadius ^ 2) ∧
    ((∃ l i, l < NUM_LANES ∧ i < NUM_CORNERS ∧
        cornerDistSq s.lanePts x y l i ≤ s.cornerPickRadius ^ 2) →
      ∃ l i, l < NUM_LANES ∧ i < NUM_CORNERS ∧
        (mousePressed s x y).draggingCorner = true ∧
        (mousePressed s x y).draggingLane = (l : Int) ∧
        (mousePressed s x y).draggingCornerIndex = (i : Int) ∧
        cornerDistSq s.lanePts x y l i ≤ s.cornerPickRadius ^ 2 ∧
        ∀ l' i', l' < NUM_LANES → i' < NUM_CORNERS →
          cornerDistSq s.lanePts x y l i ≤ cornerDistSq s.lanePts x y l' i') := by
  obtain ⟨f1, f2, f3⟩ := mousePressed_fields s x y hp hx hy
  rw [f1, f2, f3, pow_two]
  rcases findNearestCorner_spec s.lanePts s.cornerPickRadius x y with
    ⟨he, hall⟩ | ⟨l, i, hl, hi, he, hc, hmin, -⟩
  · rw [he]
    refine ⟨⟨fun _ l i hl hi => not_le.mpr (hall l i hl hi), fun _ => ⟨rfl, rfl, rfl⟩⟩, ?_⟩
    rintro ⟨l, i, hl, hi, hle⟩
    exact absurd hle (not_le.mpr (hall l i hl hi))
  · rw [he]
    refine ⟨⟨?_, ?_⟩, fun _ => ⟨l, i, hl, hi, rfl, rfl, rfl, hc, hmin⟩⟩
    · rintro ⟨h, -, -⟩
      simp at h
    · intro h
      exact absurd hc (h l i hl hi)

/-- C5, worked examples on the initial layout: the click (320, 0) picks a corner, the
click (100, 100) picks none. -/
theorem mousePressed_pick_examples :
    (((mousePressed setup 320 0).draggingCorner = false ∧
        (mousePressed setup 320 0).draggingLane = -1 ∧
        (mousePressed setup 320 0).draggingCornerIndex = -1) ↔
      ∀ l i, l < NUM_LANES → i < NUM_CORNERS →
        ¬ cornerDistSq setup.lanePts 320 0 l i ≤ setup.cornerPickRadius ^ 2) ∧
    ((∃ l i, l < NUM_LANES ∧ i < NUM_CORNERS ∧
        cornerDistSq setup.lanePts 320 0 l i ≤ setup.cornerPickRadius ^ 2) →
      ∃ l i, l < NUM_LANES ∧ i < NUM_CORNERS ∧
        (mousePressed setup 320 0).draggingCorner = true ∧
        (mousePressed setup 320 0).draggingLane = (l : Int) ∧
        (mousePressed setup 320 0).draggingCornerIndex = (i : Int) ∧
        cornerDistSq setup.lanePts 320 0 l i ≤ setup.cornerPickRadius ^ 2 ∧
        ∀ l' i', l' < NUM_LANES → i' < NUM_CORNERS →
          cornerDistSq setup.lanePts 320 0 l i ≤ cornerDistSq setup.lanePts 320 0 l' i') ∧
    (mousePressed setup 320 0).draggingCorner = true ∧
    (mousePressed setup 100 100).draggingCorner = false ∧
    (mousePressed setup 100 100).draggingLane = -1 ∧
    (mousePressed setup 100 100).draggingCornerIndex = -1 :=
  ⟨(mousePressed_pick setup 320 0 (by decide!) (by decide!) (by decide!)).1,
   (mousePressed_pick setup 320 0 (by decide!) (by decide!) (by decide!)).2,
   by decide!, by decide!, by decide!, by decide!⟩

/-- A squared distance is never negative. -/
theorem cornerDistSq_nonneg (pts : Nat → Nat → Pt) (x y : Int) (l i : Nat) :
    0 ≤ cornerDistSq pts x y l i := by
  unfold cornerDistSq
  exact add_nonneg (mul_self_nonneg _) (mul_self_nonneg _)

/-- C4, amended: for a click on page 1 inside the camera area with some corner in
the pick radius, the corner picked is a nearest corner and is the last of the
nearest corners in lane-then-index order (every corner at the same squared distance
is the picked one or is visited before it); in particular, when a left-lane corner
and a right-lane corner are equidistant, nearest and within the radius, the
right-lane corner side (lane 1) is picked. -/
theorem mousePressed_tie_break (s : App) (x y : Int) (hp : s.currentPage = 1)
    (hx : 0 ≤ x ∧ x < camWidth) (hy : 0 ≤ y ∧ y < camHeight) :
    ((∃ l i, l < NUM_LANES ∧ i < NUM_CORNERS ∧
        cornerDistSq s.lanePts x y l i ≤ s.cornerPickRadius ^ 2) →
      ∃ l i, l < NUM_LANES ∧ i < NUM_CORNERS ∧
        (mousePressed s x y).draggingCorner = true ∧
        (mousePressed s x y).draggingLane = (l : Int) ∧
        (mousePressed s x y).draggingCornerIndex = (i : Int) ∧
        cornerDistSq s.lanePts x y l i ≤ s.cornerPickRadius ^ 2 ∧
        (∀ l' i', l' < NUM_LANES → i' < NUM_CORNERS →
          cornerDistSq s.lanePts x y l i ≤ cornerDistSq s.lanePts x y l' i') ∧
        (∀ l' i', l' < NUM_LANES → i' < NUM_CORNERS →
          cornerDistSq s.lanePts x y l' i' = cornerDistSq s.lanePts x y l i →
          l' < l ∨ (l' = l ∧ i' ≤ i))) ∧
    (∀ iL iR, iL < NUM_CORNERS → iR < NUM_CORNERS →
      cornerDistSq s.lanePts x y 0 iL = cornerDistSq s.lanePts x y 1 iR →
      cornerDistSq s.lanePts x y 0 iL ≤ s.cornerPickRadius ^ 2 →
      (∀ l' i', l' < NUM_LANES → i' < NUM_CORNERS →
        cornerDistSq s.lanePts x y 0 iL ≤ cornerDistSq s.lanePts x y l' i') →
      (mousePressed s x y).draggingCorner = true ∧ (mousePressed s x y).draggingLane = 1) := by
  obtain ⟨f1, f2, f3⟩ := mousePressed_fields s x y hp hx hy
  rw [f1, f2, f3, pow_two]
  rcases findNearestCorner_spec s.lanePts s.cornerPickRadius x y with
    ⟨he, hall⟩ | ⟨l, i, hl, hi, he, hc, hmin, hlast⟩
  · constructor
    · rintro ⟨l, i, hl, hi, hle⟩
      exact absurd hle (not_le.mpr (hall l i hl hi))
    · intro iL iR hiL _ _ hle _
      exact absurd hle (not_le.mpr (hall 0 iL (by decide) hiL))
  · rw [he]
    constructor
    · intro _
      refine ⟨l, i, hl, hi, rfl, rfl, rfl, hc, hmin, ?_⟩
      intro l' i' hl' hi' heq
      by_contra hcon
      have hvb : visitedBefore (l, i) (l', i') := by
        unfold visitedBefore
        simp only
        omega
      exact absurd heq (ne_of_gt (hlast l' i' hl' hi' hvb))
    · intro iL iR hiL hiR heq hle hnear
      refine ⟨rfl, ?_⟩
      have hl1 : l = 1 := by
        by_contra hne
        have hl0 : l = 0 := by
          simp only [NUM_LANES] at hl
          omega
        have hvb : visitedBefore (l, i) (1, iR) := Or.inl (by simp [hl0])
        have h1 := hlast 1 iR (by decide) hiR hvb
        have h2 := hnear l i hl hi
        rw [heq] at h2
        exact absurd h1 (not_lt.mpr h2)
      simp [hl1]

/-- C4, worked example: on the initial layout, the click at (320, 0), where left
corner 1 and right corner 0 coincide, picks lane 1. -/
theorem mousePressed_tie_break_setup :
    (mousePressed setup 320 0).draggingCorner = true ∧ (mousePressed setup 320 0).draggingLane = 1 :=
  (mousePressed_tie_break setup 320 0 (by decide!) (by decide!) (by decide!)).2 1 0
    (by decide) (by decide) (by decide!) (by decide!)
    (fun l i _ _ => by
      rw [show cornerDistSq setup.lanePts 320 0 0 1 = 0 from by decide!]
      exact cornerDistSq_nonneg _ _ _ _ _)

/-- C4, as stated, fails: on the initial layout left corner 1 and right corner 0 are
both at (camWidth/2, 0); a click there is at squared distance 0 from both, and
`mousePressed` picks the right-lane corner (lane 1, index 0), not the left-lane
corner that comes first in lane-then-index order. -/
theorem mousePressed_tie_picks_right :
    setup.currentPage = 1 ∧ setup.lanePts 0 1 = ⟨camWidth / 2, 0⟩ ∧
    setup.lanePts 1 0 = ⟨camWidth / 2, 0⟩ ∧
    cornerDistSq setup.lanePts (camWidth / 2) 0 0 1 = 0 ∧
    cornerDistSq setup.lanePts (camWidth / 2) 0 1 0 = 0 ∧
    (mousePressed setup (camWidth / 2) 0).draggingCorner = true ∧
    (mousePressed setup (camWidth / 2) 0).draggingLane = 1 ∧
    (mousePressed setup (camWidth / 2) 0).draggingCornerIndex = 0 ∧
    (mousePressed setup (camWidth / 2) 0).draggingLane ≠ 0 := by
  decide!

/-! ### Corner drags (C9) -/

/-- The geometry update leaves the corners unchanged. -/
theorem updateLaneGeometry_lanePts (s : App) : (updateLaneGeometry s).lanePts = s.lanePts := rfl

/-- A mouse press leaves the corners unchanged. -/
theorem mousePressed_lanePts (s : App) (x y : Int) : (mousePressed s x y).lanePts = s.lanePts := by
  unfold mousePressed
  split_ifs <;> rfl

/-- A key press leaves the corners unchanged. -/
theorem keyPressed_lanePts (s : App) (c : Char) : (keyPressed s c).lanePts = s.lanePts := by
  unfold keyPressed setActivePage
  split_ifs <;> rfl

/-- Truncation of an integer value is that integer. -/
theorem truncToInt_intCast (k : Int) : truncToInt (k : ℚ) = k := by
  unfold truncToInt
  split_ifs <;> simp

/-- Clamping an integer between integer bounds and converting back to `int` loses nothing. -/
theorem truncToInt_ofClamp (v lo hi : Int) :
    ((truncToInt (ofClamp (v : ℚ) (lo : ℚ) (hi : ℚ)) : Int) : ℚ) = ofClamp (v : ℚ) (lo : ℚ) (hi : ℚ) := by
  unfold ofClamp
  split_ifs <;> rw [truncToInt_intCast]

/-- A drag on page 1 with a valid picked corner stores the clamped point in that corner. -/
theorem mouseDragged_spec (s : App) (x y : Int) (l i : Nat) (hp : s.currentPage = 1)
    (hd : s.draggingCorner = true) (hl : l < NUM_LANES) (hi : i < NUM_CORNERS)
    (hdl : s.draggingLane = (l : Int)) (hdi : s.draggingCornerIndex = (i : Int)) :
    (mouseDragged s x y).lanePts
      = setPt s.lanePts l i
          ⟨ofClamp x 0 ((camWidth - 1 : Int) : ℚ), ofClamp y 0 ((camHeight - 1 : Int) : ℚ)⟩ := by
  have hcond : 0 ≤ s.draggingLane ∧ s.draggingLane < NUM_LANES ∧
      0 ≤ s.draggingCornerIndex ∧ s.draggingCornerIndex < NUM_CORNERS := by
    rw [hdl, hdi]
    exact ⟨Int.natCast_nonneg _, by exact_mod_cast hl, Int.natCast_nonneg _, by exact_mod_cast hi⟩
  have e1 := truncToInt_ofClamp x 0 (camWidth - 1)
  have e2 := truncToInt_ofClamp y 0 (camHeight - 1)
  simp only [Int.cast_zero] at e1 e2
  unfold mouseDragged
  simp only [hp, ne_eq, not_true_eq_false, if_false, hd, Bool.not_true, Bool.false_eq_true,
    if_pos hcond, updateLaneGeometry_lanePts]
  rw [e1, e2, hdl, hdi]
  simp

/-- The clamped drag point lies in the clamp range. -/
theorem ofClamp_inRange (x y : Int) :
    inClampRange ⟨ofClamp x 0 ((camWidth - 1 : Int) : ℚ), ofClamp y 0 ((camHeight - 1 : Int) : ℚ)⟩ := by
  have hw : (0 : ℚ) ≤ ((camWidth - 1 : Int) : ℚ) := by decide!
  have hh : (0 : ℚ) ≤ ((camHeight - 1 : Int) : ℚ) := by decide!
  exact ⟨le_ofClamp _ hw, ofClamp_le _ hw, le_ofClamp _ hh, ofClamp_le _ hh⟩

/-- A drag either leaves the corners unchanged or stores the clamped point in one corner. -/
theorem mouseDragged_cases (s : App) (x y : Int) :
    (mouseDragged s x y).lanePts = s.lanePts ∨
    ∃ l i, (mouseDragged s x y).lanePts
      = setPt s.lanePts l i
          ⟨ofClamp x 0 ((camWidth - 1 : Int) : ℚ), ofClamp y 0 ((camHeight - 1 : Int) : ℚ)⟩ := by
  by_cases hp : s.currentPage = 1
  · by_cases hd : s.draggingCorner = true
    · by_cases hcond : 0 ≤ s.draggingLane ∧ s.draggingLane < NUM_LANES ∧
          0 ≤ s.draggingCornerIndex ∧ s.draggingCornerIndex < NUM_CORNERS
      · refine Or.inr ⟨s.draggingLane.toNat, s.draggingCornerIndex.toNat, ?_⟩
        have h1 : ((s.draggingLane.toNat : Nat) : Int) = s.draggingLane := Int.toNat_of_nonneg hcond.1
        have h2 : ((s.draggingCornerIndex.toNat : Nat) : Int) = s.draggingCornerIndex :=
          Int.toNat_of_nonneg hcond.2.2.1
        exact mouseDragged_spec s x y _ _ hp hd (by exact_mod_cast h1 ▸ hcond.2.1)
          (by exact_mod_cast h2 ▸ hcond.2.2.2) h1.symm h2.symm
      · left
        unfold mouseDragged
        simp only [hp, ne_eq, not_true_eq_false, if_false, hd, Bool.not_true, Bool.false_eq_true,
          if_neg hcond]
    · left
      unfold mouseDragged
      simp [hp, hd]
  · left
    unfold mouseDragged
    simp [hp]

/-- Every lane editor event preserves the lane invariant. -/
theorem laneInv_step (s : App) (e : LaneEvent) (h : LaneInv s) : LaneInv (laneStep s e) := by
  cases e with
  | pressed x y =>
    intro l i hl hi
    show (mousePressed s x y).lanePts l i = _ ∨ inClampRange ((mousePressed s x y).lanePts l i)
    rw [mousePressed_lanePts]
    exact h l i hl hi
  | dragged x y =>
    intro l i hl hi
    show (mouseDragged s x y).lanePts l i = _ ∨ inClampRange ((mouseDragged s x y).lanePts l i)
    rcases mouseDragged_cases s x y with he | ⟨l0, i0, he⟩
    · rw [he]
      exact h l i hl hi
    · rw [he]
      unfold setPt
      by_cases hc : l = l0 ∧ i = i0
      · rw [if_pos hc]
        exact Or.inr (ofClamp_inRange x y)
      · rw [if_neg hc]
        exact h l i hl hi
  | released => exact h
  | key c =>
    intro l i hl hi
    show (keyPressed s c).lanePts l i = _ ∨ inClampRange ((keyPressed s c).lanePts l i)
    rw [keyPressed_lanePts]
    exact h l i hl hi

/-- Every sequence of lane editor events preserves the lane invariant. -/
theorem laneInv_foldl (es : List LaneEvent) :
    ∀ s : App, LaneInv s → LaneInv (es.foldl laneStep s) := by
  induction es with
  | nil => intro s h; exact h
  | cons e t ih => intro s h; exact ih _ (laneInv_step s e h)

/-- The corners placed by `setup()` lie in the closed frame rectangle. -/
theorem setup_inFrameRect :
    ∀ l, l < NUM_LANES → ∀ i, i < NUM_CORNERS → inFrameRect (setup.lanePts l i) := by
  unfold inFrameRect
  decide!

/-- The clamp range lies inside the closed frame rectangle. -/
theorem inClampRange_inFrameRect (p : Pt) (h : inClampRange p) : inFrameRect p := by
  obtain ⟨h1, h2, h3, h4⟩ := h
  have hw : ((camWidth - 1 : Int) : ℚ) ≤ (camWidth : ℚ) := by decide!
  have hh : ((camHeight - 1 : Int) : ℚ) ≤ (camHeight : ℚ) := by decide!
  exact ⟨h1, le_trans h2 hw, h3, le_trans h4 hh⟩

/-- C9, amended: in every state reached from `setup()` by mouse presses, drags
(with arbitrary coordinates), releases and page keys, each of the 8 corners either
still holds its `setup()` position or lies in the clamp range `0 <= x <= camWidth-1`,
`0 <= y <= camHeight-1`, and so lies in the closed frame rectangle `0 <= x <= camWidth`,
`0 <= y <= camHeight`; a drag to `(x, y)` on page 1 with a picked corner stores exactly
`(clamp(x, 0, camWidth-1), clamp(y, 0, camHeight-1))` in that corner, which is in the
clamp range, and leaves the other corners unchanged. -/
theorem laneRun_corners (es : List LaneEvent) (s : App) (x y : Int) :
    (∀ l i, l < NUM_LANES → i < NUM_CORNERS →
      (laneRun es).lanePts l i = setup.lanePts l i ∨ inClampRange ((laneRun es).lanePts l i)) ∧
    (∀ l i, l < NUM_LANES → i < NUM_CORNERS → inFrameRect ((laneRun es).lanePts l i)) ∧
    (∀ l i, s.currentPage = 1 → s.draggingCorner = true → l < NUM_LANES → i < NUM_CORNERS →
      s.draggingLane = (l : Int) → s.draggingCornerIndex = (i : Int) →
      (mouseDragged s x y).lanePts l i
        = ⟨ofClamp x 0 ((camWidth - 1 : Int) : ℚ), ofClamp y 0 ((camHeight - 1 : Int) : ℚ)⟩ ∧
      inClampRange ((mouseDragged s x y).lanePts l i) ∧
      ∀ l' i', ¬ (l' = l ∧ i' = i) → (mouseDragged s x y).lanePts l' i' = s.lanePts l' i') := by
  have hinv : LaneInv (laneRun es) := laneInv_foldl es setup (fun l i _ _ => Or.inl rfl)
  refine ⟨hinv, ?_, ?_⟩
  · intro l i hl hi
    rcases hinv l i hl hi with h | h
    · rw [h]
      exact setup_inFrameRect l hl i hi
    · exact inClampRange_inFrameRect _ h
  · intro l i hp hd hl hi hdl hdi
    have he := mouseDragged_spec s x y l i hp hd hl hi hdl hdi
    rw [he]
    refine ⟨by simp [setPt], ?_, ?_⟩
    · simp only [setPt, and_self, if_true]
      exact ofClamp_inRange x y
    · intro l' i' hne
      simp [setPt, hne]

/-- C9, worked example: after picking right corner 0 on the initial layout, a drag to
(1000, -5) stores (639, 0) there and changes no other corner. -/
theorem mouseDragged_example :
    (mouseDragged (mousePressed setup 320 0) 1000 (-5)).lanePts 1 0
      = ⟨ofClamp 1000 0 ((camWidth - 1 : Int) : ℚ), ofClamp (-5) 0 ((camHeight - 1 : Int) : ℚ)⟩ ∧
    inClampRange ((mouseDragged (mousePressed setup 320 0) 1000 (-5)).lanePts 1 0) ∧
    (∀ l' i', ¬ (l' = 1 ∧ i' = 0) →
      (mouseDragged (mousePressed setup 320 0) 1000 (-5)).lanePts l' i'
        = (mousePressed setup 320 0).lanePts l' i') ∧
    (mouseDragged (mousePressed setup 320 0) 1000 (-5)).lanePts 1 0 = ⟨639, 0⟩ :=
  ⟨((laneRun_corners [] (mousePressed setup 320 0) 1000 (-5)).2.2 1 0 (by decide!) (by decide!)
      (by decide) (by decide) (by decide!) (by decide!)).1,
   ((laneRun_corners [] (mousePressed setup 320 0) 1000 (-5)).2.2 1 0 (by decide!) (by decide!)
      (by decide) (by decide) (by decide!) (by decide!)).2.1,
   ((laneRun_corners [] (mousePressed setup 320 0) 1000 (-5)).2.2 1 0 (by decide!) (by decide!)
      (by decide) (by decide) (by decide!) (by decide!)).2.2,
   by decide!⟩

/-- C9, as stated, fails: in the initial state (no drag yet) left corner 2 is
(320, 480) and right corner 1 is (640, 0), outside the range `y <= camHeight-1 = 479`
and `x <= camWidth-1 = 639` that a dragged corner is clamped to. -/
theorem setup_corner_outside_clampRange :
    (laneRun []).lanePts 0 2 = ⟨320, 480⟩ ∧ camHeight - 1 = 479 ∧
    ¬ ((laneRun []).lanePts 0 2).y ≤ ((camHeight - 1 : Int) : ℚ) ∧
    (laneRun []).lanePts 1 1 = ⟨640, 0⟩ ∧
    ¬ ((laneRun []).lanePts 1 1).x ≤ ((camWidth - 1 : Int) : ℚ) := by
  decide!

/-! ### Detector warm-up (C7) -/

/-- C7, amended: whenever there is no previous frame (`prevFrame` not allocated) and
the camera frame is allocated, the tick stores the current frame as the previous
frame and leaves `leftScore`, `rightScore`, `progressLeft`, `progressRight` and the
active flag unchanged; the result is the same for every unallocated previous frame,
so none of its pixels is read. -/
theorem computeMotion_warmup (inside : List Pt → ℚ → ℚ → Bool) (s : App) (cur : Pixels)
    (hc : cur.allocated = true) (hp : s.prevFrame.allocated = false) :
    (computeMotion inside s cur).prevFrame = cur ∧
    (computeMotion inside s cur).leftScore = s.leftScore ∧
    (computeMotion inside s cur).rightScore = s.rightScore ∧
    (computeMotion inside s cur).progressLeft = s.progressLeft ∧
    (computeMotion inside s cur).progressRight = s.progressRight ∧
    (computeMotion inside s cur).roundActive = s.roundActive ∧
    (∀ p : Pixels, p.allocated = false →
      computeMotion inside { s with prevFrame := p } cur = computeMotion inside s cur) := by
  unfold computeMotion
  simp [hc, hp]
  intro p hpa
  simp [hpa]

/-- C7, worked example: the first frame after `setup()`. -/
theorem computeMotion_warmup_setup :
    (computeMotion ofPolylineInside setup mismatchFrame).prevFrame = mismatchFrame ∧
    (computeMotion ofPolylineInside setup mismatchFrame).leftScore = setup.leftScore ∧
    (computeMotion ofPolylineInside setup mismatchFrame).rightScore = setup.rightScore ∧
    (computeMotion ofPolylineInside setup mismatchFrame).progressLeft = setup.progressLeft ∧
    (computeMotion ofPolylineInside setup mismatchFrame).progressRight = setup.progressRight ∧
    (computeMotion ofPolylineInside setup mismatchFrame).roundActive = setup.roundActive :=
  ⟨(computeMotion_warmup ofPolylineInside setup mismatchFrame (by decide) (by decide!)).1,
   (computeMotion_warmup ofPolylineInside setup mismatchFrame (by decide) (by decide!)).2.1,
   (computeMotion_warmup ofPolylineInside setup mismatchFrame (by decide) (by decide!)).2.2.1,
   (computeMotion_warmup ofPolylineInside setup mismatchFrame (by decide) (by decide!)).2.2.2.1,
   (computeMotion_warmup ofPolylineInside setup mismatchFrame (by decide) (by decide!)).2.2.2.2.1,
   (computeMotion_warmup ofPolylineInside setup mismatchFrame (by decide) (by decide!)).2.2.2.2.2.1⟩

/-- C7, as stated, fails: with an allocated previous frame of 4 x 1 and a current
frame of 2 x 2 (width and height differ), the tick is a scoring tick: `leftScore`
goes from 0 to 1/768000 and `progressLeft` from 0 to 1/153600, and the outcome
depends on the samples of the mismatched previous frame (with all of them 255
instead of 0 the progress stays 0). -/
theorem computeMotion_mismatch_scores :
    mismatchState.prevFrame.allocated = true ∧
    mismatchState.prevFrame.width ≠ mismatchFrame.width ∧
    mismatchState.prevFrame.height ≠ mismatchFrame.height ∧
    mismatchState.leftScore = 0 ∧ mismatchState.progressLeft = 0 ∧
    (computeMotion ofPolylineInside mismatchState mismatchFrame).leftScore = 1 / 768000 ∧
    (computeMotion ofPolylineInside mismatchState mismatchFrame).progressLeft = 1 / 153600 ∧
    (computeMotion ofPolylineInside
      { mismatchState with prevFrame := ⟨true, 4, 1, 3, List.replicate 12 255⟩ }
      mismatchFrame).progressLeft = 0 := by
  decide!

/-! ### Polygon area (C6) -/

/-- An accumulating loop over indices is the sum of its summands. -/
theorem foldl_add_eq_sum (f : Nat → ℚ) (L : List Nat) :
    L.foldl (fun (a : ℚ) i => a + f i) 0 = (L.map f).sum := by
  rw [List.sum_eq_foldl, List.foldl_map]

/-- A small integer point has integer coordinates of absolute value at most `2 ^ 11`. -/
theorem smallIntPt_coords (p : Pt) (h : smallIntPt p) :
    ∃ a b : Int, |a| ≤ 2 ^ 11 ∧ |b| ≤ 2 ^ 11 ∧ p.x = (a : ℚ) ∧ p.y = (b : ℚ) := by
  obtain ⟨hx, hy, bx, bybound⟩ := h
  have ex : p.x = (p.x.num : ℚ) := (Rat.coe_int_num_of_den_eq_one hx).symm
  have ey : p.y = (p.y.num : ℚ) := (Rat.coe_int_num_of_den_eq_one hy).symm
  refine ⟨p.x.num, p.y.num, ?_, ?_, ex, ey⟩
  · rw [ex] at bx
    have : ((|p.x.num| : Int) : ℚ) ≤ ((2048 : Int) : ℚ) := by push_cast; exact bx
    have := Int.cast_le.mp this
    norm_num
    exact this
  · rw [ey] at bybound
    have : ((|p.y.num| : Int) : ℚ) ≤ ((2048 : Int) : ℚ) := by push_cast; exact bybound
    have := Int.cast_le.mp this
    norm_num
    exact this

/-- For small integer points the `float` products and difference of the shoelace summand are
exact, and the summand is an integer of absolute value at most `2 ^ 23`. -/
theorem cross_smallInt (p0 p1 : Pt) (h0 : smallIntPt p0) (h1 : smallIntPt p1) :
    roundF (roundF (p0.x * p1.y) - roundF (p1.x * p0.y)) = cross p0 p1 ∧
    ∃ z : Int, cross p0 p1 = (z : ℚ) ∧ |z| ≤ 2 ^ 23 := by
  obtain ⟨a, b, ha, hb, ex0, ey0⟩ := smallIntPt_coords p0 h0
  obtain ⟨c, d, hc, hd, ex1, ey1⟩ := smallIntPt_coords p1 h1
  have had : |a * d| ≤ 2 ^ 22 := by
    rw [abs_mul]
    calc |a| * |d| ≤ 2 ^ 11 * 2 ^ 11 := mul_le_mul ha hd (abs_nonneg _) (by norm_num)
      _ = 2 ^ 22 := by norm_num
  have hcb : |c * b| ≤ 2 ^ 22 := by
    rw [abs_mul]
    calc |c| * |b| ≤ 2 ^ 11 * 2 ^ 11 := mul_le_mul hc hb (abs_nonneg _) (by norm_num)
      _ = 2 ^ 22 := by norm_num
  have hz : |a * d - c * b| ≤ 2 ^ 23 := by
    calc |a * d - c * b| ≤ |a * d| + |c * b| := abs_sub _ _
      _ ≤ 2 ^ 22 + 2 ^ 22 := add_le_add had hcb
      _ = 2 ^ 23 := by norm_num
  have e1 : roundF (p0.x * p1.y) = ((a * d : Int) : ℚ) := by
    rw [ex0, ey1, ← Int.cast_mul]
    exact roundF_intCast _ (le_trans had (by norm_num))
  have e2 : roundF (p1.x * p0.y) = ((c * b : Int) : ℚ) := by
    rw [ex1, ey0, ← Int.cast_mul]
    exact roundF_intCast _ (le_trans hcb (by norm_num))
  have e3 : cross p0 p1 = ((a * d - c * b : Int) : ℚ) := by
    unfold cross
    rw [ex0, ey0, ex1, ey1]
    push_cast
    ring
  refine ⟨?_, a * d - c * b, e3, hz⟩
  rw [e1, e2, e3, ← Int.cast_sub]
  exact roundF_intCast _ (le_trans hz (by norm_num))

/-- A `double` accumulator that adds integers of absolute value at most `2 ^ 23` stays exact
while the running bound is at most `2 ^ 53`. -/
theorem foldl_roundD_exact :
    ∀ (ts : List ℚ) (a : Int), (∀ t ∈ ts, ∃ z : Int, t = (z : ℚ) ∧ |z| ≤ 2 ^ 23) →
      |a| + (ts.length : Int) * 2 ^ 23 ≤ 2 ^ 53 →
      ts.foldl (fun acc t => roundD (acc + t)) (a : ℚ) = (a : ℚ) + ts.sum := by
  intro ts
  induction ts with
  | nil => intro a _ _; simp
  | cons t ts ih =>
    intro a hts hb
    obtain ⟨z, hz, hzb⟩ := hts t (List.mem_cons_self _ _)
    have hlen : ((t :: ts).length : Int) = (ts.length : Int) + 1 := by simp
    rw [hlen] at hb
    have habs : |a + z| ≤ |a| + 2 ^ 23 := le_trans (abs_add _ _) (by linarith)
    have hstep : roundD ((a : ℚ) + t) = ((a + z : Int) : ℚ) := by
      rw [hz, ← Int.cast_add]
      exact roundD_intCast _ (by linarith [Int.natCast_nonneg ts.length])
    rw [List.foldl_cons, hstep, ih (a + z) (fun t' ht' => hts t' (List.mem_cons_of_mem _ ht'))
      (by linarith), List.sum_cons, hz]
    push_cast
    ring

/-- The summands of the shoelace loop are the cross terms of consecutive points. -/
theorem edges_eq_zipWith (pts : List Pt) :
    (List.range pts.length).map
        (fun i => cross (pts.getD i ⟨0, 0⟩) (pts.getD ((i + 1) % pts.length) ⟨0, 0⟩))
      = List.zipWith cross pts (pts.rotate 1) := by
  apply List.ext_getElem
  · simp
  · intro i h1 h2
    have hi : i < pts.length := by simpa using h1
    have hm : (i + 1) % pts.length < pts.length := Nat.mod_lt _ (by omega)
    simp only [List.getElem_map, List.getElem_range, List.getElem_zipWith, List.getElem_rotate]
    rw [List.getD_eq_getElem _ _ hi, List.getD_eq_getElem _ _ hm]


/-- For small integer points the shoelace loop of `computePolygonArea` computes the exact
shoelace sum. -/
theorem computePolygonArea_smallInt (pts : List Pt) (hs : ∀ p ∈ pts, smallIntPt p)
    (hlen : pts.length ≤ 2 ^ 30) :
    computePolygonArea pts
      = if pts.length < 3 then 0 else roundF (roundD (|shoelace pts| * (1 / 2))) := by
  unfold computePolygonArea
  simp only
  split_ifs with h
  · rfl
  · have hmem : ∀ i, i < pts.length → smallIntPt (pts.getD i ⟨0, 0⟩) := by
      intro i hi
      rw [List.getD_eq_getElem _ _ hi]
      exact hs _ (List.getElem_mem _)
    have hterm : ∀ i ∈ List.range pts.length,
        roundF (roundF ((pts.getD i ⟨0, 0⟩).x * (pts.getD ((i + 1) % pts.length) ⟨0, 0⟩).y)
          - roundF ((pts.getD ((i + 1) % pts.length) ⟨0, 0⟩).x * (pts.getD i ⟨0, 0⟩).y))
        = cross (pts.getD i ⟨0, 0⟩) (pts.getD ((i + 1) % pts.length) ⟨0, 0⟩) := by
      intro i hi
      have hi' : i < pts.length := List.mem_range.mp hi
      exact (cross_smallInt _ _ (hmem i hi') (hmem _ (Nat.mod_lt _ (by omega)))).1
    have hfold : (List.range pts.length).foldl
        (fun (area : ℚ) i =>
          roundD (area + roundF (roundF ((pts.getD i ⟨0, 0⟩).x
              * (pts.getD ((i + 1) % pts.length) ⟨0, 0⟩).y)
            - roundF ((pts.getD ((i + 1) % pts.length) ⟨0, 0⟩).x * (pts.getD i ⟨0, 0⟩).y)))) 0
        = ((List.range pts.length).map
            (fun i => cross (pts.getD i ⟨0, 0⟩) (pts.getD ((i + 1) % pts.length) ⟨0, 0⟩))).foldl
            (fun acc t => roundD (acc + t)) 0 := by
      rw [List.foldl_map]
      apply List.foldl_ext
      intro a i hi
      rw [hterm i hi]
    have hexact := foldl_roundD_exact
      ((List.range pts.length).map
        (fun i => cross (pts.getD i ⟨0, 0⟩) (pts.getD ((i + 1) % pts.length) ⟨0, 0⟩))) 0
      (by
        intro t ht
        obtain ⟨i, hi, rfl⟩ := List.mem_map.mp ht
        have hi' : i < pts.length := List.mem_range.mp hi
        exact (cross_smallInt _ _ (hmem i hi') (hmem _ (Nat.mod_lt _ (by omega)))).2)
      (by
        simp only [List.length_map, List.length_range, abs_zero, zero_add]
        have : (pts.length : Int) ≤ 2 ^ 30 := by exact_mod_cast hlen
        calc (pts.length : Int) * 2 ^ 23 ≤ 2 ^ 30 * 2 ^ 23 :=
              mul_le_mul_of_nonneg_right this (by norm_num)
          _ = 2 ^ 53 := by norm_num)
    simp only [Int.cast_zero, zero_add] at hexact
    rw [hfold, hexact, edges_eq_zipWith]
    rfl

/-- The shoelace sum of a rotated list is the shoelace sum of the list. -/
theorem shoelace_rotate (pts : List Pt) (k : Nat) : shoelace (pts.rotate k) = shoelace pts := by
  unfold shoelace
  rw [List.rotate_rotate, Nat.add_comm, ← List.rotate_rotate,
    ← List.zipWith_rotate_distrib cross pts (pts.rotate 1) k (by simp)]
  exact (List.rotate_perm _ k).sum_eq

/-- Swapping the two ends of every edge negates the sum of cross terms. -/
theorem sum_zipWith_cross_swap (l m : List Pt) :
    (List.zipWith cross l m).sum = -(List.zipWith cross m l).sum := by
  induction l generalizing m with
  | nil => simp
  | cons a t ih =>
    cases m with
    | nil => simp
    | cons b u =>
      simp only [List.zipWith_cons_cons, List.sum_cons, ih u]
      unfold cross
      ring

/-- The shoelace sum of the reversed list is the negated shoelace sum. -/
theorem shoelace_reverse (pts : List Pt) (h : 2 ≤ pts.length) :
    shoelace pts.reverse = -shoelace pts := by
  have h1 : 1 % pts.length = 1 := Nat.mod_eq_of_lt (by omega)
  have hrot : (pts.rotate (pts.length - 1)).rotate 1 = pts := by
    rw [List.rotate_rotate, Nat.sub_add_cancel (by omega), List.rotate_length]
  calc shoelace pts.reverse
      = (List.zipWith cross pts.reverse (pts.rotate (pts.length - 1)).reverse).sum := by
        unfold shoelace
        rw [List.rotate_reverse, h1]
    _ = (List.zipWith cross pts (pts.rotate (pts.length - 1))).reverse.sum := by
        rw [List.reverse_zipWith (by simp)]
    _ = (List.zipWith cross pts (pts.rotate (pts.length - 1))).sum := List.sum_reverse _
    _ = -(List.zipWith cross (pts.rotate (pts.length - 1)) pts).sum := sum_zipWith_cross_swap _ _
    _ = -shoelace (pts.rotate (pts.length - 1)) := by
        unfold shoelace
        rw [hrot]
    _ = -shoelace pts := by rw [shoelace_rotate]


/-- C6, amended: for every list of at most `2 ^ 30` points whose coordinates are
integers of absolute value at most 2048 (every corner the lane editor can store is
such a point), the area of every cyclic rotation of the list and of the reversed
list equals the area of the list, which is the rounding of half the absolute value
of the exact shoelace sum. -/
theorem computePolygonArea_rotate_reverse_smallInt (pts : List Pt) (k : Nat)
    (hs : ∀ p ∈ pts, smallIntPt p) (hlen : pts.length ≤ 2 ^ 30) :
    computePolygonArea (pts.rotate k) = computePolygonArea pts ∧
    computePolygonArea pts.reverse = computePolygonArea pts ∧
    computePolygonArea pts
      = (if pts.length < 3 then 0 else roundF (roundD (|shoelace pts| * (1 / 2)))) := by
  have e0 := computePolygonArea_smallInt pts hs hlen
  have e1 := computePolygonArea_smallInt (pts.rotate k)
    (fun p hp => hs p (List.mem_rotate.mp hp)) (by rw [List.length_rotate]; exact hlen)
  have e2 := computePolygonArea_smallInt pts.reverse
    (fun p hp => hs p (List.mem_reverse.mp hp)) (by rw [List.length_reverse]; exact hlen)
  refine ⟨?_, ?_, e0⟩
  · rw [e1, e0, List.length_rotate, shoelace_rotate]
  · rw [e2, e0, List.length_reverse]
    split_ifs with h
    · rfl
    · rw [shoelace_reverse pts (by omega), abs_neg]

/-- C6, worked example: the rectangle (0,0),(10,0),(10,5),(0,5) has area 50 in each
of its 4 rotations and in reversed order. -/
theorem computePolygonArea_rectangle :
    computePolygonArea ([⟨0, 0⟩, ⟨10, 0⟩, ⟨10, 5⟩, ⟨0, 5⟩] : List Pt) = 50 ∧
    computePolygonArea (([⟨0, 0⟩, ⟨10, 0⟩, ⟨10, 5⟩, ⟨0, 5⟩] : List Pt).rotate 1) = 50 ∧
    computePolygonArea (([⟨0, 0⟩, ⟨10, 0⟩, ⟨10, 5⟩, ⟨0, 5⟩] : List Pt).rotate 2) = 50 ∧
    computePolygonArea (([⟨0, 0⟩, ⟨10, 0⟩, ⟨10, 5⟩, ⟨0, 5⟩] : List Pt).rotate 3) = 50 ∧
    computePolygonArea ([⟨0, 0⟩, ⟨10, 0⟩, ⟨10, 5⟩, ⟨0, 5⟩] : List Pt).reverse = 50 := by
  have h0 : computePolygonArea ([⟨0, 0⟩, ⟨10, 0⟩, ⟨10, 5⟩, ⟨0, 5⟩] : List Pt) = 50 := by decide!
  have hr := fun k => (computePolygonArea_rotate_reverse_smallInt
    ([⟨0, 0⟩, ⟨10, 0⟩, ⟨10, 5⟩, ⟨0, 5⟩] : List Pt) k (by decide!) (by decide)).1
  have hv := (computePolygonArea_rotate_reverse_smallInt
    ([⟨0, 0⟩, ⟨10, 0⟩, ⟨10, 5⟩, ⟨0, 5⟩] : List Pt) 0 (by decide!) (by decide)).2.1
  exact ⟨h0, (hr 1).trans h0, (hr 2).trans h0, (hr 3).trans h0, hv.trans h0⟩

/-- C6, as stated, fails: the four points (0,1),(1,-1e8),(-1e8,0),(2,-1e8) have
`float` coordinates; `computePolygonArea` returns 1 for the list, 1/2, 0 and 0 for
its rotations by 1, 2 and 3, and 1/2 for the reversed list (the products 1e16 and
the running sums are rounded). -/
theorem computePolygonArea_skewQuad :
    (∀ p ∈ skewQuad, roundF p.x = p.x ∧ roundF p.y = p.y) ∧
    computePolygonArea skewQuad = 1 ∧
    computePolygonArea (skewQuad.rotate 1) = 1 / 2 ∧
    computePolygonArea (skewQuad.rotate 2) = 0 ∧
    computePolygonArea (skewQuad.rotate 3) = 0 ∧
    computePolygonArea skewQuad.reverse = 1 / 2 ∧
    computePolygonArea (skewQuad.rotate 1) ≠ computePolygonArea skewQuad ∧
    computePolygonArea skewQuad.reverse ≠ computePolygonArea skewQuad := by
  decide!

/-! ### Lane corners are small integer points -/

/-- The clamped drag point is a small integer point. -/
theorem ofClamp_smallInt (x y : Int) :
    smallIntPt ⟨ofClamp x 0 ((camWidth - 1 : Int) : ℚ), ofClamp y 0 ((camHeight - 1 : Int) : ℚ)⟩ := by
  have e1 := truncToInt_ofClamp x 0 (camWidth - 1)
  have e2 := truncToInt_ofClamp y 0 (camHeight - 1)
  simp only [Int.cast_zero] at e1 e2
  obtain ⟨a1, a2, a3, a4⟩ := ofClamp_inRange x y
  have hw : ((camWidth - 1 : Int) : ℚ) ≤ 2048 := by decide!
  have hh : ((camHeight - 1 : Int) : ℚ) ≤ 2048 := by decide!
  refine ⟨?_, ?_, ?_, ?_⟩
  · show (ofClamp (x : ℚ) 0 ((camWidth - 1 : Int) : ℚ)).den = 1
    rw [← e1]
    exact Rat.den_intCast _
  · show (ofClamp (y : ℚ) 0 ((camHeight - 1 : Int) : ℚ)).den = 1
    rw [← e2]
    exact Rat.den_intCast _
  · show |ofClamp (x : ℚ) 0 ((camWidth - 1 : Int) : ℚ)| ≤ 2048
    rw [abs_of_nonneg a1]
    exact le_trans a2 hw
  · show |ofClamp (y : ℚ) 0 ((camHeight - 1 : Int) : ℚ)| ≤ 2048
    rw [abs_of_nonneg a3]
    exact le_trans a4 hh

/-- The corners placed by `setup()` are small integer points. -/
theorem setup_smallInt :
    ∀ l, l < NUM_LANES → ∀ i, i < NUM_CORNERS → smallIntPt (setup.lanePts l i) := by
  decide!

/-- Every lane editor event keeps the corners small integer points. -/
theorem laneStep_smallInt (s : App) (e : LaneEvent)
    (h : ∀ l i, l < NUM_LANES → i < NUM_CORNERS → smallIntPt (s.lanePts l i)) :
    ∀ l i, l < NUM_LANES → i < NUM_CORNERS → smallIntPt ((laneStep s e).lanePts l i) := by
  cases e with
  | pressed x y =>
    intro l i hl hi
    show smallIntPt ((mousePressed s x y).lanePts l i)
    rw [mousePressed_lanePts]
    exact h l i hl hi
  | dragged x y =>
    intro l i hl hi
    show smallIntPt ((mouseDragged s x y).lanePts l i)
    rcases mouseDragged_cases s x y with he | ⟨l0, i0, he⟩
    · rw [he]
      exact h l i hl hi
    · rw [he]
      unfold setPt
      by_cases hc : l = l0 ∧ i = i0
      · rw [if_pos hc]
        exact ofClamp_smallInt x y
      · rw [if_neg hc]
        exact h l i hl hi
  | released => exact h
  | key c =>
    intro l i hl hi
    show smallIntPt ((keyPressed s c).lanePts l i)
    rw [keyPressed_lanePts]
    exact h l i hl hi

/-- In every state reached from `setup()` by lane editor events the 8 corners are small
integer points. -/
theorem laneRun_smallInt (es : List LaneEvent) :
    ∀ l i, l < NUM_LANES → i < NUM_CORNERS → smallIntPt ((laneRun es).lanePts l i) := by
  have key : ∀ (es : List LaneEvent) (s : App),
      (∀ l i, l < NUM_LANES → i < NUM_CORNERS → smallIntPt (s.lanePts l i)) →
      ∀ l i, l < NUM_LANES → i < NUM_CORNERS → smallIntPt ((es.foldl laneStep s).lanePts l i) := by
    intro es
    induction es with
    | nil => intro s h; exact h
    | cons e t ih => intro s h; exact ih _ (laneStep_smallInt s e h)
  exact key es setup (fun l i hl hi => setup_smallInt l hl i hi)

/-- Every corner array that `computeLaneAreas` passes to `computePolygonArea` in a reachable
state consists of small integer points. -/
theorem laneCorners_smallInt (es : List LaneEvent) (l : Nat) (hl : l < NUM_LANES) :
    ∀ p ∈ laneCorners (laneRun es).lanePts l, smallIntPt p := by
  intro p hp
  unfold laneCorners at hp
  obtain ⟨i, hi, rfl⟩ := List.mem_map.mp hp
  exact laneRun_smallInt es l i hl (List.mem_range.mp hi)

/-! ### Full-frame normalisation (C8) -/

end ThreshRacer
